import Mathlib

/-!
Verification of the BRITE topology reader/builder (`topologies/BriteTopology.py`).

The Python module is shallowly embedded:

* the input file is a `List String` of lines (without trailing newlines);
  `readline` past the end of the file returns `""`, as in Python;
* the regular expressions of the module are embedded as deterministic
  tokenizing functions.  All of them are applied with `re.match` (anchored
  prefix match).  In each pattern every character class is disjoint from the
  separator that follows it (`\d`, `[\d-]`, `[\w_-]` contain no whitespace,
  and the literal that follows a `\s*` never begins with a whitespace
  character), so greedy left-to-right matching without backtracking accepts
  exactly the same lines as the Python regex engine, and captures the same
  groups;
* the mininet backend is recorded symbolically: `addHost`, `addSwitch` and
  `addLink` append the created names to lists inside the topology state;
* Python `assert` failures (AssertionError) and `int()` failures
  (ValueError) are modelled by `Option`: `none` means the call raised.  In
  the source every such check precedes any mutation of the object, so a
  `none` result corresponds to a raising call that left the state unchanged;
* the two dictionaries of the module (`autonomousSystems`, keyed by AS id,
  and `botdict`, keyed by node id) are CPython 2.7 `dict`s.  Entries are
  stored here as association lists in insertion order; iteration
  (`keys()` / `values()`) is modelled by `sortByKey`, because for the
  dictionaries in question — distinct small non-negative integer keys, where
  CPython 2.7 has `hash(k) = k` and an open-addressing table scanned in slot
  order — iteration enumerates keys in ascending numeric order, which is in
  general different from insertion order.
-/

namespace BriteSpec

/-- Python `\s` on an ASCII `str` (no `re.UNICODE`): space, tab, newline,
carriage return, vertical tab, form feed. -/
def pyIsSpace (c : Char) : Bool :=
  c = ' ' || c = '\t' || c = '\n' || c = '\r' || c = '\x0b' || c = '\x0c'

/-- Python `\d` on an ASCII `str`. -/
def pyIsDigit (c : Char) : Bool :=
  '0' ≤ c && c ≤ '9'

/-- Python `\w` on an ASCII `str` (no `re.UNICODE`, no `re.LOCALE`). -/
def pyIsWord (c : Char) : Bool :=
  ('a' ≤ c && c ≤ 'z') || ('A' ≤ c && c ≤ 'Z') || pyIsDigit c || c = '_'

/-- The character class `[\d-]` used for AS ids. -/
def isDigitDash (c : Char) : Bool :=
  pyIsDigit c || c = '-'

/-- The character classes `[\w_-]` and `[-_\w]` used for type tokens and
model names. -/
def isWordDash (c : Char) : Bool :=
  pyIsWord c || c = '-'

/-- Greedy `c+` for a character class: fails on an empty match, otherwise
returns the token and the rest of the line. -/
def many1 (p : Char → Bool) (cs : List Char) : Option (List Char × List Char) :=
  match cs.takeWhile p with
  | [] => none
  | tk => some (tk, cs.dropWhile p)

/-- Greedy `\s*`. -/
def ws0 (cs : List Char) : List Char :=
  cs.dropWhile pyIsSpace

/-- Greedy `\s+`. -/
def ws1 (cs : List Char) : Option (List Char) :=
  (many1 pyIsSpace cs).map Prod.snd

/-- A literal fragment of a pattern. -/
def lit : List Char → List Char → Option (List Char)
  | [], cs => some cs
  | _ :: _, [] => none
  | l :: ls, c :: cs => if c = l then lit ls cs else none

/-- Numeric value of a matched `\d+` group, as computed by Python `int`. -/
def natOfDigits (cs : List Char) : Nat :=
  cs.foldl (fun n c => 10 * n + (c.toNat - 48)) 0

/-- Python `int()` applied to a token matched by `[\d-]+`: an optional
leading `-` followed by at least one digit; any other arrangement of the
characters raises `ValueError`, modelled by `none`. -/
def pyIntOfTok (s : String) : Option Int :=
  match s.data with
  | '-' :: cs =>
      if cs ≠ [] ∧ cs.all pyIsDigit then some (-(natOfDigits cs : Int)) else none
  | cs =>
      if cs ≠ [] ∧ cs.all pyIsDigit then some (natOfDigits cs : Int) else none

/-- The regex `^\s*$` (`emptyLineRe`), under `re.match`: the line consists of
whitespace only (`$` also matches just before a trailing newline). -/
def emptyLine (line : String) : Bool :=
  line.data.all pyIsSpace

/-- First header regex, `Topology:\s*\(\s*(\d+)\s*Nodes,\s*(\d+)\s*Edges\s*\)`
under `re.match`; returns the two captured counts. -/
def topologyLineMatch (line : String) : Option (Nat × Nat) := do
  let cs := line.data
  let cs ← lit ("Topology:".data) cs
  let cs := ws0 cs
  let cs ← lit ("(".data) cs
  let cs := ws0 cs
  let (g1, cs) ← many1 pyIsDigit cs
  let cs := ws0 cs
  let cs ← lit ("Nodes,".data) cs
  let cs := ws0 cs
  let (g2, cs) ← many1 pyIsDigit cs
  let cs := ws0 cs
  let cs ← lit ("Edges".data) cs
  let cs := ws0 cs
  let _ ← lit (")".data) cs
  pure (natOfDigits g1, natOfDigits g2)

/-- Second header regex, `Model\s*\(\d+\s*-\s*([\w_-]+)\).*` under
`re.match`; returns the captured model name. -/
def modelLineMatch (line : String) : Option String := do
  let cs := line.data
  let cs ← lit ("Model".data) cs
  let cs := ws0 cs
  let cs ← lit ("(".data) cs
  let (_, cs) ← many1 pyIsDigit cs
  let cs := ws0 cs
  let cs ← lit ("-".data) cs
  let cs := ws0 cs
  let (name, cs) ← many1 isWordDash cs
  let _ ← lit (")".data) cs
  pure (String.mk name)

/-- A class token followed by at least one whitespace character (`c+\s+`). -/
def tokWs (p : Char → Bool) (cs : List Char) : Option (List Char × List Char) :=
  match many1 p cs with
  | none => none
  | some (tk, rest) =>
      match ws1 rest with
      | none => none
      | some rest' => some (tk, rest')

/-- Skips `n` further `\d+\s+` fragments. -/
def natToksWs : Nat → List Char → Option (List Char)
  | 0, cs => some cs
  | n + 1, cs =>
      match tokWs pyIsDigit cs with
      | none => none
      | some (_, rest) => natToksWs n rest

/-- Captured groups of `nodeRe`.  Only groups 1, 6 and 7 are consumed by
`_readNodes`; groups 2–5 (coordinates and degrees) are matched but unused. -/
structure NodeCaps where
  nodeid : Nat
  asidTok : String
  nodetype : String
deriving DecidableEq, Repr

/-- A `[\d-]+\s` fragment followed by a final `[\w_-]+` group: the tail of
`nodeRe` (a single `\s` separates groups 6 and 7, and the closing `\s*` of a
prefix match tolerates arbitrary trailing text). -/
def nodeTailMatch (cs : List Char) : Option (String × String) :=
  match many1 isDigitDash cs with
  | none => none
  | some (g6, rest) =>
      match rest with
      | [] => none
      | c :: rest' =>
          if pyIsSpace c then
            match many1 isWordDash rest' with
            | none => none
            | some (g7, _) => some (String.mk g6, String.mk g7)
          else none

/-- Node regex
`(\d+)\s+(\d+)\s+(\d+)\s+(\d+)\s+(\d+)\s+([\d-]+)\s([\w_-]+)\s*` under
`re.match`. -/
def nodeLineMatch (line : String) : Option NodeCaps :=
  match tokWs pyIsDigit line.data with
  | none => none
  | some (g1, cs) =>
      match natToksWs 4 cs with
      | none => none
      | some cs' =>
          match nodeTailMatch cs' with
          | none => none
          | some (g6, g7) => some (NodeCaps.mk (natOfDigits g1) g6 g7)

/-- Captured groups of `edgeRe`.  `_readEdges` consumes groups 1, 2, 3, 5,
6, 7, 8, 9; group 4 (the length) and group 10 (the trailing token) are
matched but unused. -/
structure EdgeCaps where
  edgeid : Nat
  fromNode : Nat
  toNode : Nat
  delay : String
  bandwidth : String
  fromASTok : String
  toASTok : String
  edgetype : String
deriving DecidableEq, Repr

/-- A `(\d+\.\d+)` group: the decimal literal later handed to `float()`.
The matched text is kept verbatim. -/
def decimalTok (cs : List Char) : Option (List Char × List Char) :=
  match many1 pyIsDigit cs with
  | none => none
  | some (a, rest) =>
      match rest with
      | '.' :: rest' =>
          match many1 pyIsDigit rest' with
          | none => none
          | some (b, rest'') => some (a ++ '.' :: b, rest'')
      | _ => none

/-- A `(\d+\.\d+)\s+` fragment. -/
def decTokWs (cs : List Char) : Option (List Char × List Char) :=
  match decimalTok cs with
  | none => none
  | some (tk, rest) =>
      match ws1 rest with
      | none => none
      | some rest' => some (tk, rest')

/-- Groups 1–3 of `edgeRe`: `(\d+)\s+(\d+)\s+(\d+)\s+`. -/
def edgeIntsMatch (cs : List Char) : Option (Nat × Nat × Nat × List Char) :=
  match tokWs pyIsDigit cs with
  | none => none
  | some (g1, cs1) =>
      match tokWs pyIsDigit cs1 with
      | none => none
      | some (g2, cs2) =>
          match tokWs pyIsDigit cs2 with
          | none => none
          | some (g3, cs3) => some (natOfDigits g1, natOfDigits g2, natOfDigits g3, cs3)

/-- Groups 4–6 of `edgeRe`: three `(\d+\.\d+)\s+` fragments; group 4 (the
edge length) is matched but never read by `_readEdges`. -/
def edgeFloatsMatch (cs : List Char) : Option (String × String × List Char) :=
  match decTokWs cs with
  | none => none
  | some (_, cs1) =>
      match decTokWs cs1 with
      | none => none
      | some (g5, cs2) =>
          match decTokWs cs2 with
          | none => none
          | some (g6, cs3) => some (String.mk g5, String.mk g6, cs3)

/-- Groups 7–10 of `edgeRe`: `([\d-]+)\s+([\d-]+)\s+([\w_-]+)\s+([-_\w]+)\s*`.
Group 10 is matched but never read; as a prefix match the closing `\s*`
tolerates arbitrary trailing text. -/
def edgeTailMatch (cs : List Char) : Option (String × String × String) :=
  match tokWs isDigitDash cs with
  | none => none
  | some (g7, cs1) =>
      match tokWs isDigitDash cs1 with
      | none => none
      | some (g8, cs2) =>
          match tokWs isWordDash cs2 with
          | none => none
          | some (g9, cs3) =>
              match many1 isWordDash cs3 with
              | none => none
              | some _ => some (String.mk g7, String.mk g8, String.mk g9)

/-- Edge regex
`(\d+)\s+(\d+)\s+(\d+)\s+(\d+\.\d+)\s+(\d+\.\d+)\s+(\d+\.\d+)\s+([\d-]+)\s+([\d-]+)\s+([\w_-]+)\s+([-_\w]+)\s*`
under `re.match`.  It has ten groups: after the type token (group 9) a
further whitespace-separated token (group 10) is required for the line to
match at all. -/
def edgeLineMatch (line : String) : Option EdgeCaps :=
  match edgeIntsMatch line.data with
  | none => none
  | some (g1, g2, g3, cs) =>
      match edgeFloatsMatch cs with
      | none => none
      | some (g5, g6, cs') =>
          match edgeTailMatch cs' with
          | none => none
          | some (g7, g8, g9) => some (EdgeCaps.mk g1 g2 g3 g5 g6 g7 g8 g9)

/-- A node record as delivered to `addNode`: `int(nodeid)`, `int(asid)`,
`str(type)`. -/
structure NodeRec where
  nodeid : Nat
  asid : Int
  nodetype : String
deriving DecidableEq, Repr

/-- An edge record as delivered to `addEdge`.  The delay and bandwidth are
the verbatim `(\d+\.\d+)` literals of groups 5 and 6 (the source converts
them with `float()`, which parses exactly this literal). -/
structure EdgeRec where
  edgeid : Nat
  fromNode : Nat
  toNode : Nat
  delay : String
  bandwidth : String
  fromAS : Int
  toAS : Int
  edgetype : String
deriving DecidableEq, Repr

/-- The observer callbacks fired by one parse of a BRITE file, in firing
order. -/
inductive BriteEvent where
  | writeHeader (numNodes numEdges : Nat) (modelname : String)
  | addNode (nodeid : Nat) (asid : Int) (nodetype : String)
  | addEdge (edgeid fromNode toNode : Nat) (delay bandwidth : String)
      (fromAS toAS : Int) (edgetype : String)
  | writeFooter
deriving DecidableEq, Repr

def nodeEvent (r : NodeRec) : BriteEvent :=
  BriteEvent.addNode r.nodeid r.asid r.nodetype

def edgeEvent (r : EdgeRec) : BriteEvent :=
  BriteEvent.addEdge r.edgeid r.fromNode r.toNode r.delay r.bandwidth
    r.fromAS r.toAS r.edgetype

def isAddNode : BriteEvent → Bool
  | BriteEvent.addNode _ _ _ => true
  | _ => false

def isAddEdge : BriteEvent → Bool
  | BriteEvent.addEdge _ _ _ _ _ _ _ _ => true
  | _ => false

def isWriteFooter : BriteEvent → Bool
  | BriteEvent.writeFooter => true
  | _ => false

/-- Matching a node line and converting its captures, as the body of the
`_readNodes` loop does on a matching line. -/
def nodeLineParse (line : String) : Option NodeRec :=
  match nodeLineMatch line with
  | none => none
  | some caps =>
      match pyIntOfTok caps.asidTok with
      | none => none
      | some a => some (NodeRec.mk caps.nodeid a caps.nodetype)

/-- Matching an edge line and converting its captures, as the body of the
`_readEdges` loop does on a matching line. -/
def edgeLineParse (line : String) : Option EdgeRec :=
  match edgeLineMatch line with
  | none => none
  | some caps =>
      match pyIntOfTok caps.fromASTok with
      | none => none
      | some fa =>
          match pyIntOfTok caps.toASTok with
          | none => none
          | some ta =>
              some (EdgeRec.mk caps.edgeid caps.fromNode caps.toNode
                caps.delay caps.bandwidth fa ta caps.edgetype)

/-- Python `readline` on the remaining lines: past the end of the file it
returns the empty string. -/
def readline : List String → String × List String
  | [] => ("", [])
  | l :: ls => (l, ls)

/-- The literal used by `line.startswith("Model")`. -/
def modelWord : String := "Model"

/-- Bool-valued prefix test on character lists. -/
def isPrefixList : List Char → List Char → Bool
  | [], _ => true
  | _ :: _, [] => false
  | p :: ps, c :: cs => if c = p then isPrefixList ps cs else false

/-- Python `line.startswith(pre)` (also the effect of matching the anchored
patterns `"Nodes:.*"` / `"Edges:.*"` with `re.match`). -/
def pyStartsWith (s pre : String) : Bool :=
  isPrefixList pre.data s.data

/-- The loop at the end of `_readHeader`: reads lines while they start with
`"Model"`, consuming the first line that does not (at end of file,
`readline` returns `""`, which breaks the loop). -/
def skipModelLines : List String → List String
  | [] => []
  | l :: ls => if pyStartsWith l modelWord then skipModelLines ls else ls

/-- The skip loops at the start of `_readNodes` / `_readEdges`: blank lines
and stray non-matching lines are skipped until a line matching
`marker + ".*"` is found (that line is consumed).  At end of file the
Python loop rereads `""` — a blank line — forever; that divergence is
modelled by `none`. -/
def skipToSection (marker : String) : List String → Option (List String)
  | [] => none
  | l :: ls =>
      if emptyLine l then skipToSection marker ls
      else if pyStartsWith l marker then some ls
      else skipToSection marker ls

/-- The record loop of `_readNodes`: a matching line yields a record (a
failing `int()` conversion raises, aborting the parse — `none`); a blank
line ends the section; any other line logs a warning (counted) and is
skipped.  At end of file `readline` returns `""`, a blank line, so the loop
ends. -/
def readNodeRecords : List String → Option (List NodeRec × Nat × List String)
  | [] => some ([], 0, [])
  | l :: ls =>
      match nodeLineMatch l with
      | some caps =>
          match pyIntOfTok caps.asidTok with
          | none => none
          | some a =>
              match readNodeRecords ls with
              | none => none
              | some (rs, w, rest) =>
                  some (NodeRec.mk caps.nodeid a caps.nodetype :: rs, w, rest)
      | none =>
          if emptyLine l then some ([], 0, ls)
          else
            match readNodeRecords ls with
            | none => none
            | some (rs, w, rest) => some (rs, w + 1, rest)

/-- The record loop of `_readEdges`, with the same structure as the node
loop. -/
def readEdgeRecords : List String → Option (List EdgeRec × Nat × List String)
  | [] => some ([], 0, [])
  | l :: ls =>
      match edgeLineMatch l with
      | some caps =>
          match pyIntOfTok caps.fromASTok with
          | none => none
          | some fa =>
              match pyIntOfTok caps.toASTok with
              | none => none
              | some ta =>
                  match readEdgeRecords ls with
                  | none => none
                  | some (rs, w, rest) =>
                      some (EdgeRec.mk caps.edgeid caps.fromNode caps.toNode
                        caps.delay caps.bandwidth fa ta caps.edgetype :: rs, w, rest)
      | none =>
          if emptyLine l then some ([], 0, ls)
          else
            match readEdgeRecords ls with
            | none => none
            | some (rs, w, rest) => some (rs, w + 1, rest)

/-- The marker accepted by `re.compile("Nodes:.*").match`. -/
def nodesMarker : String := "Nodes:"

/-- The marker accepted by `re.compile("Edges:.*").match`. -/
def edgesMarker : String := "Edges:"

/-- One call of `createGraphFromBriteFile`, as the list of observer
callbacks it fires in order (the same for every accepter) together with the
number of warnings logged for malformed records.  `none` models an
uncaught exception (failed header assert or failed `int()`), or the
end-of-file divergence of a section-skip loop. -/
def parseBrite (lines : List String) : Option (List BriteEvent × Nat) :=
  let (l1, rest1) := readline lines
  let (l2, rest2) := readline rest1
  match topologyLineMatch l1, modelLineMatch l2 with
  | some (n, m), some model =>
      match skipToSection nodesMarker (skipModelLines rest2) with
      | none => none
      | some rest3 =>
          match readNodeRecords rest3 with
          | none => none
          | some (nodes, w1, rest4) =>
              match skipToSection edgesMarker rest4 with
              | none => none
              | some rest5 =>
                  match readEdgeRecords rest5 with
                  | none => none
                  | some (edges, w2, _) =>
                      some (BriteEvent.writeHeader n m model ::
                              (nodes.map nodeEvent ++ edges.map edgeEvent ++
                                [BriteEvent.writeFooter]),
                            w1 + w2)
  | _, _ => none

/-- A BRITE file assembled from its two header lines, its node-section
lines and its edge-section lines, in the canonical layout produced by the
generator (a blank line after the header and a blank line terminating each
section). -/
def mkBriteFile (hdr1 hdr2 : String) (nodeLines edgeLines : List String) :
    List String :=
  hdr1 :: hdr2 :: "" :: nodesMarker ::
    (nodeLines ++ "" :: edgesMarker :: (edgeLines ++ [""]))

/-- The fan-out of `createGraphFromBriteFile`: each event is delivered to
every accepter, in accepter-list order (`for acc in accepters: ...`),
before the pass advances to the next event.  Observers are identified by
their position in the accepter list. -/
def fanoutTrace (numObs : Nat) (evs : List BriteEvent) : List (Nat × BriteEvent) :=
  evs.flatMap (fun e => (List.range numObs).map (fun i => (i, e)))

/-- The subsequence of callbacks that observer `i` receives from a fan-out
trace. -/
def observerView (i : Nat) (tr : List (Nat × BriteEvent)) : List BriteEvent :=
  tr.filterMap (fun p => if p.1 = i then some p.2 else none)

/-- Lookup in a CPython dict held as an insertion-ordered association list
(keys are unique, so first match is the entry). -/
def pyLookup {α β : Type} [DecidableEq α] (k : α) : List (α × β) → Option β
  | [] => none
  | (k', v) :: rest => if k' = k then some v else pyLookup k rest

/-- Assignment `d[k] = v` on a CPython dict held as an insertion-ordered
association list: an existing key keeps its position, a new key is
appended. -/
def pySet {α β : Type} [DecidableEq α] (k : α) (v : β) : List (α × β) → List (α × β)
  | [] => [(k, v)]
  | (k', v') :: rest => if k' = k then (k, v) :: rest else (k', v') :: pySet k v rest

/-- CPython 2.7 `dict` iteration (`keys()` / `values()` / `items()`) for the
dictionaries of this module: the keys are distinct small non-negative
machine integers, for which CPython 2.7 has `hash(k) = k`, the open
addressing table has more slots than the largest key, and iteration scans
the table in slot order — so entries are enumerated in ascending key
order, which in general differs from insertion order. -/
def sortByKey {α β : Type} [LinearOrder α] (d : List (α × β)) : List (α × β) :=
  List.insertionSort (fun p q => p.1 ≤ q.1) d

/-- The `_FirewallRule` value class.  `toJSON` serialises `action`
verbatim; the constructor default is `"ALLOW"`. -/
structure FirewallRule where
  fromHost : Nat
  toHost : Nat
  action : String
deriving DecidableEq, Repr

/-- The constructor default `action="ALLOW"` of `_FirewallRule`. -/
def allowAction : String := "ALLOW"

/-- The `_AutonomousSystem` value class: AS id, member dictionary
(node id to mininet host, represented by its name), and the single switch
handle (represented by its name).  `addNode` assigns all three fields
right after construction, so the class-level defaults are never shared. -/
structure AutonomousSystem where
  asid : Int
  botdict : List (Nat × String)
  switch : String
deriving DecidableEq, Repr

/-- The name `"bot%d" % nodeid` given to the mininet host of a node
(`_createBotname`). -/
def botname (nodeid : Nat) : String :=
  "bot" ++ toString nodeid

/-- The name `"sw%d" % asid` given to the switch of an AS
(`_createSwitchname`). -/
def switchname (asid : Int) : String :=
  "sw" ++ toString asid

/-- The state of a `BriteTopology` object together with its mininet
backend.  The backend is recorded symbolically: `hosts`, `switches` and
`links` list the `addHost` / `addSwitch` / `addLink` calls made so far, in
order (hosts and switches by name, links by endpoint names). -/
structure BriteState where
  wroteHeader : Bool
  started : Bool
  modelname : Option String
  autonomousSystems : List (Int × AutonomousSystem)
  firewallRules : List FirewallRule
  hosts : List String
  switches : List String
  links : List (String × String)
deriving DecidableEq, Repr

/-- A freshly constructed `BriteTopology`. -/
def initialBriteState : BriteState where
  wroteHeader := false
  started := false
  modelname := none
  autonomousSystems := []
  firewallRules := []
  hosts := []
  switches := []
  links := []

/-- `BriteTopology.writeHeader`: the base class records that the header was
seen, then the model name is stored. -/
def briteWriteHeader (st : BriteState) (numNodes numEdges : Nat)
    (modelname : String) : BriteState :=
  { st with wroteHeader := true, modelname := some modelname }

/-- `BriteTopology.addNode`.  The base-class assert (`wroteHeader`) and the
`assert not self.started` precede every mutation, so a failing call
(`none`) leaves the object unchanged.  Then: add a host; if the AS id is
new, create the `_AutonomousSystem` with a fresh switch; record the host
in the AS member dict; link the host to the AS's switch. -/
def briteAddNode (st : BriteState) (nodeid : Nat) (asid : Int)
    (nodetype : String) : Option BriteState :=
  if st.wroteHeader = false then none
  else if st.started then none
  else
    match pyLookup asid st.autonomousSystems with
    | some autsys =>
        some { st with
                hosts := st.hosts ++ [botname nodeid],
                autonomousSystems :=
                  pySet asid
                    { autsys with botdict := pySet nodeid (botname nodeid) autsys.botdict }
                    st.autonomousSystems,
                links := st.links ++ [(botname nodeid, autsys.switch)] }
    | none =>
        some { st with
                hosts := st.hosts ++ [botname nodeid],
                switches := st.switches ++ [switchname asid],
                autonomousSystems := st.autonomousSystems ++
                  [(asid, AutonomousSystem.mk asid (pySet nodeid (botname nodeid) [])
                      (switchname asid))],
                links := st.links ++ [(botname nodeid, switchname asid)] }

/-- `BriteTopology.addEdge`.  After the base-class assert and the
`assert not self.started`, two firewall rules are appended; nothing else
changes. -/
def briteAddEdge (st : BriteState) (edgeid fromNode toNode : Nat)
    (delay bandwidth : String) (fromAS toAS : Int) (edgetype : String) :
    Option BriteState :=
  if st.wroteHeader = false then none
  else if st.started then none
  else
    some { st with
            firewallRules := st.firewallRules ++
              [FirewallRule.mk fromNode toNode allowAction,
               FirewallRule.mk toNode fromNode allowAction] }

/-- The pairwise chaining of `_connectSwitchesToSwitches`: for
`i = 1 .. len-1` one link between the switches of consecutive key
positions. -/
def chainLinks : List (Int × AutonomousSystem) → List (String × String)
  | (_, a) :: (k, b) :: rest => (a.switch, b.switch) :: chainLinks ((k, b) :: rest)
  | _ => []

/-- `BriteTopology._connectSwitchesToSwitches`: links the AS switches
pairwise following `self.autonomousSystems.keys()` — dict iteration
order. -/
def briteConnectSwitchesToSwitches (st : BriteState) : BriteState :=
  { st with links := st.links ++ chainLinks (sortByKey st.autonomousSystems) }

/-- The links added by `BriteTopology._connectASNodesToSwitches`: for every
AS (in dict iteration order) and every member of its `botdict` (in dict
iteration order), one link from the AS's switch to the member host. -/
def memberLinks (d : List (Int × AutonomousSystem)) : List (String × String) :=
  (sortByKey d).flatMap (fun p => (sortByKey p.2.botdict).map (fun q => (p.2.switch, q.2)))

/-- `BriteTopology._connectASNodesToSwitches`. -/
def briteConnectASNodesToSwitches (st : BriteState) : BriteState :=
  { st with links := st.links ++ memberLinks st.autonomousSystems }

/-- `BriteTopology.writeFooter`: the base class does nothing (in particular
it performs no header check), then the switch backbone is chained and
every AS member is linked to its AS's switch a second time. -/
def briteWriteFooter (st : BriteState) : BriteState :=
  briteConnectASNodesToSwitches (briteConnectSwitchesToSwitches st)

/-- Application of one observer callback to a `BriteTopology`. -/
def applyBriteEvent (st : BriteState) : BriteEvent → Option BriteState
  | BriteEvent.writeHeader n m model => some (briteWriteHeader st n m model)
  | BriteEvent.addNode nodeid asid ty => briteAddNode st nodeid asid ty
  | BriteEvent.addEdge eid f t d b fa ta ty => briteAddEdge st eid f t d b fa ta ty
  | BriteEvent.writeFooter => some (briteWriteFooter st)

/-- Application of a callback sequence to a `BriteTopology`; `none` as soon
as one callback raises. -/
def applyBriteEvents (st : BriteState) : List BriteEvent → Option BriteState
  | [] => some st
  | e :: es =>
      match applyBriteEvent st e with
      | none => none
      | some st' => applyBriteEvents st' es

/-- The externally visible calls made by `BriteTopology.start`, in order. -/
inductive StartAction where
  | mininetStart
  | installRule (rule : FirewallRule)
  | enableFirewall
deriving DecidableEq, Repr

/-- The loop of `BriteTopology._applyFirewallRules`: one POST per rule, in
list order; a response status other than 200 logs a warning (counted) and
the loop continues.  `resp i` is the status code returned for the `i`-th
POST. -/
def applyFirewallRules (resp : Nat → Nat) : Nat → List FirewallRule →
    List StartAction × Nat
  | _, [] => ([], 0)
  | i, r :: rest =>
      (StartAction.installRule r :: (applyFirewallRules resp (i + 1) rest).1,
       (if resp i = 200 then 0 else 1) + (applyFirewallRules resp (i + 1) rest).2)

/-- `BriteTopology.start`: sets `started`, starts mininet, installs every
firewall rule (non-200 responses are logged, not raised), then enables the
firewall (a non-200 response is likewise only logged).  Returns the new
state, the calls made, and the number of warnings logged.  `fwStatus` is
the status code of the firewall-enable GET. -/
def briteStart (st : BriteState) (resp : Nat → Nat) (fwStatus : Nat) :
    BriteState × List StartAction × Nat :=
  ({ st with started := true },
   StartAction.mininetStart :: (applyFirewallRules resp 0 st.firewallRules).1 ++
     [StartAction.enableFirewall],
   (applyFirewallRules resp 0 st.firewallRules).2 +
     (if fwStatus = 200 then 0 else 1))

/-- Sample node type token (BRITE router-node marker). -/
def rtNode : String := "RT_NODE"

/-- Sample first header line. -/
def hdr1Sample : String := "Topology: ( 3 Nodes, 5 Edges )"

/-- Sample second header line. -/
def hdr2Sample : String := "Model (1 - RTWaxman): 20 100 100 1 2"

/-- A `BriteTopology` that has received its header. -/
def headerState : BriteState :=
  briteWriteHeader initialBriteState 3 5 "RTWaxman"

/-- Callback run in which three nodes arrive with AS ids first seen in the
order 3, 1, 2. -/
def evsBackbone : List BriteEvent :=
  [BriteEvent.writeHeader 3 0 "RTWaxman",
   BriteEvent.addNode 1 3 rtNode,
   BriteEvent.addNode 2 1 rtNode,
   BriteEvent.addNode 3 2 rtNode]

/-- The builder state after `evsBackbone`, just before `writeFooter`. -/
def stBackbone : BriteState :=
  (applyBriteEvents initialBriteState evsBackbone).getD initialBriteState

/-- The backbone links the spec's words predict for claim C5 (modelled from
the spec, for comparison only): AS switches chained pairwise following the
order in which their AS ids were first encountered during the parse.  The
insertion-ordered association list records exactly that first-seen
order. -/
def firstSeenChainLinks (st : BriteState) : List (String × String) :=
  chainLinks st.autonomousSystems

/-- A nine-field edge line of the shape the spec describes
(`<id> <from> <to> <length> <delay> <bandwidth> <fromAS> <toAS> <type>`). -/
def nineFieldLine : String := "1 2 3 212.11 0.77 10.00 1 2 E_RT"

/-- The same edge line with the tenth field (the direction token emitted by
the BRITE generator) that `edgeRe` requires. -/
def tenFieldLine : String := "1 2 3 212.11 0.77 10.00 1 2 E_RT U"

/-- State reached by one `addEdge (1, 2)` on a topology that has its
header. -/
def stC2 : BriteState :=
  (briteAddEdge headerState 0 1 2 "0.77" "10.00" 1 2 "E_RT").getD initialBriteState

/-- A line of the node section together with its fate: `some r` for a line
the node regex accepts (and whose AS id converts), `none` for a tolerated
malformed line. -/
def nodeItemOK : String × Option NodeRec → Prop
  | (l, some r) => nodeLineParse l = some r
  | (l, none) => nodeLineMatch l = none ∧ emptyLine l = false

/-- A line of the edge section together with its fate. -/
def edgeItemOK : String × Option EdgeRec → Prop
  | (l, some r) => edgeLineParse l = some r
  | (l, none) => edgeLineMatch l = none ∧ emptyLine l = false

/-- The callback stream produced by parsing a file whose node records are
`nodeRecs` and whose edge records are `edgeRecs`: one `writeHeader`, the
node events in file order, the edge events in file order, one
`writeFooter`. -/
def briteEventStream (n m : Nat) (model : String) (nodeRecs : List NodeRec)
    (edgeRecs : List EdgeRec) : List BriteEvent :=
  BriteEvent.writeHeader n m model ::
    (nodeRecs.map nodeEvent ++ edgeRecs.map edgeEvent ++ [BriteEvent.writeFooter])

/-- A sample well-formed node line (`id x y indeg outdeg asId type`). -/
def nodeLineSample : String := "0 10 20 2 2 1 RT_NODE"

/-- The record the sample node line parses to. -/
def nodeRecSample : NodeRec := NodeRec.mk 0 1 rtNode

/-- The record `tenFieldLine` parses to. -/
def edgeRecSample : EdgeRec := EdgeRec.mk 1 2 3 "0.77" "10.00" 1 2 "E_RT"

/-- A node section holding one well-formed record and one stray line. -/
def nodeItemsSample : List (String × Option NodeRec) :=
  [(nodeLineSample, some nodeRecSample), ("stray text", none)]

/-- An edge section holding one malformed (nine-field) line and one
well-formed (ten-field) record. -/
def edgeItemsSample : List (String × Option EdgeRec) :=
  [(nineFieldLine, none), (tenFieldLine, some edgeRecSample)]

/-- Node `nodeid` is a member of the AS `asid` in the built model: the AS
exists and its member dictionary has an entry for the node. -/
def memberOf (nodeid : Nat) (asid : Int) (st : BriteState) : Prop :=
  ∃ a, pyLookup asid st.autonomousSystems = some a ∧
    (pyLookup nodeid a.botdict).isSome = true

/-- Structural invariant of every reachable `BriteTopology` state: AS ids
are unique; every AS entry carries its own key as `asid`, the switch named
after its key, and member hosts named after their node ids; and the
switches created in mininet are exactly one per AS entry, in creation
order. -/
def StateInv (st : BriteState) : Prop :=
  (st.autonomousSystems.map Prod.fst).Nodup ∧
    (∀ p ∈ st.autonomousSystems, p.2.asid = p.1 ∧ p.2.switch = switchname p.1 ∧
      ∀ q ∈ p.2.botdict, q.2 = botname q.1) ∧
    st.switches = st.autonomousSystems.map (fun p => switchname p.1)

/-- All member node ids across all ASes. -/
def allMemberKeys (d : List (Int × AutonomousSystem)) : List Nat :=
  d.flatMap (fun p => p.2.botdict.map Prod.fst)

/-- One `(switch, host)` pair per AS member, across all ASes, in insertion
order. -/
def allMemberLinks (d : List (Int × AutonomousSystem)) : List (String × String) :=
  d.flatMap (fun p => p.2.botdict.map (fun q => (p.2.switch, q.2)))

/-- Callback run in which two nodes share AS id 7. -/
def evsC3 : List BriteEvent :=
  [BriteEvent.writeHeader 2 0 "RTWaxman",
   BriteEvent.addNode 1 7 rtNode,
   BriteEvent.addNode 2 7 rtNode]

/-- The builder state after `evsC3`. -/
def stC3 : BriteState :=
  (applyBriteEvents initialBriteState evsC3).getD initialBriteState

/-- Two sample nodes sharing AS 7, for the footer-relinking run. -/
def ndsC10 : List NodeRec := [NodeRec.mk 1 7 rtNode, NodeRec.mk 2 7 rtNode]

/-- A sample one-edge record list. -/
def edsC10 : List EdgeRec := [edgeRecSample]

/-- The builder state just before `writeFooter` in the sample run. -/
def stPreC10 : BriteState :=
  (applyBriteEvents initialBriteState
      (BriteEvent.writeHeader 2 1 "RTWaxman" ::
        (ndsC10.map nodeEvent ++ edsC10.map edgeEvent))).getD initialBriteState

instance sortKeyTotal {α β : Type} [LinearOrder α] :
    IsTotal (α × β) (fun p q => p.1 ≤ q.1) :=
  ⟨fun p q => le_total p.1 q.1⟩

instance sortKeyTrans {α β : Type} [LinearOrder α] :
    IsTrans (α × β) (fun p q => p.1 ≤ q.1) :=
  ⟨fun _ _ _ h h' => le_trans h h'⟩

/-! ### Lemmas about the builder operations -/

theorem briteAddEdge_eq_some {st st' : BriteState} {eid f t : Nat} {d b : String}
    {fa ta : Int} {ty : String}
    (h : briteAddEdge st eid f t d b fa ta ty = some st') :
    st.wroteHeader = true ∧ st.started = false ∧
      st' = { st with firewallRules := st.firewallRules ++
                [FirewallRule.mk f t allowAction, FirewallRule.mk t f allowAction] } := by
  unfold briteAddEdge at h
  split at h
  · exact absurd h (by simp)
  · split at h
    · exact absurd h (by simp)
    · refine ⟨by simp_all, by simp_all, (Option.some.inj h).symm⟩

theorem briteAddEdge_of_ready {st : BriteState} (hw : st.wroteHeader = true)
    (hs : st.started = false) (eid f t : Nat) (d b : String) (fa ta : Int)
    (ty : String) :
    briteAddEdge st eid f t d b fa ta ty =
      some { st with firewallRules := st.firewallRules ++
              [FirewallRule.mk f t allowAction, FirewallRule.mk t f allowAction] } := by
  unfold briteAddEdge
  rw [hw, hs]
  simp

theorem briteAddNode_eq_some {st st' : BriteState} {nid : Nat} {aid : Int}
    {ty : String} (h : briteAddNode st nid aid ty = some st') :
    st.wroteHeader = true ∧ st.started = false ∧
      ((∃ autsys, pyLookup aid st.autonomousSystems = some autsys ∧
          st' = { st with
                    hosts := st.hosts ++ [botname nid],
                    autonomousSystems :=
                      pySet aid { autsys with
                                    botdict := pySet nid (botname nid) autsys.botdict }
                        st.autonomousSystems,
                    links := st.links ++ [(botname nid, autsys.switch)] }) ∨
        (pyLookup aid st.autonomousSystems = none ∧
          st' = { st with
                    hosts := st.hosts ++ [botname nid],
                    switches := st.switches ++ [switchname aid],
                    autonomousSystems := st.autonomousSystems ++
                      [(aid, AutonomousSystem.mk aid (pySet nid (botname nid) [])
                          (switchname aid))],
                    links := st.links ++ [(botname nid, switchname aid)] })) := by
  unfold briteAddNode at h
  split at h
  · exact absurd h (by simp)
  · split at h
    · exact absurd h (by simp)
    · refine ⟨by simp_all, by simp_all, ?_⟩
      split at h
      · exact Or.inl ⟨_, by assumption, (Option.some.inj h).symm⟩
      · exact Or.inr ⟨by assumption, (Option.some.inj h).symm⟩

theorem briteAddNode_preserves {st st' : BriteState} {nid : Nat} {aid : Int}
    {ty : String} (h : briteAddNode st nid aid ty = some st') :
    st'.wroteHeader = st.wroteHeader ∧ st'.started = st.started ∧
      st'.firewallRules = st.firewallRules := by
  obtain ⟨-, -, hc | hc⟩ := briteAddNode_eq_some h
  · obtain ⟨a, -, rfl⟩ := hc
    exact ⟨rfl, rfl, rfl⟩
  · obtain ⟨-, rfl⟩ := hc
    exact ⟨rfl, rfl, rfl⟩

theorem briteWriteFooter_spec (st : BriteState) :
    briteWriteFooter st =
      { st with links := (st.links ++ chainLinks (sortByKey st.autonomousSystems)) ++
          memberLinks st.autonomousSystems } :=
  rfl

theorem applyBriteEvent_rules_allow {st st' : BriteState} {e : BriteEvent}
    (h : applyBriteEvent st e = some st')
    (hr : ∀ r ∈ st.firewallRules, r.action = allowAction) :
    ∀ r ∈ st'.firewallRules, r.action = allowAction := by
  cases e with
  | writeHeader n m model =>
      cases Option.some.inj h
      exact hr
  | addNode nid aid ty =>
      have h' : briteAddNode st nid aid ty = some st' := h
      rw [(briteAddNode_preserves h').2.2]
      exact hr
  | addEdge eid f t d b fa ta ty =>
      have h' : briteAddEdge st eid f t d b fa ta ty = some st' := h
      obtain ⟨-, -, rfl⟩ := briteAddEdge_eq_some h'
      intro r hrm
      rcases List.mem_append.mp hrm with hm | hm
      · exact hr r hm
      · simp only [List.mem_cons, List.not_mem_nil, or_false] at hm
        rcases hm with rfl | rfl <;> rfl
  | writeFooter =>
      cases Option.some.inj h
      exact hr

theorem applyBriteEvents_rules_allow :
    ∀ (evs : List BriteEvent) (st st' : BriteState),
      applyBriteEvents st evs = some st' →
      (∀ r ∈ st.firewallRules, r.action = allowAction) →
      ∀ r ∈ st'.firewallRules, r.action = allowAction := by
  intro evs
  induction evs with
  | nil =>
      intro st st' h hr
      cases Option.some.inj h
      exact hr
  | cons e es ih =>
      intro st st' h hr
      unfold applyBriteEvents at h
      rcases he : applyBriteEvent st e with _ | st1
      · rw [he] at h
        exact absurd h (by simp)
      · rw [he] at h
        exact ih st1 st' h (applyBriteEvent_rules_allow he hr)

theorem applyFirewallRules_fst (resp : Nat → Nat) :
    ∀ (rules : List FirewallRule) (i : Nat),
      (applyFirewallRules resp i rules).1 = rules.map StartAction.installRule := by
  intro rules
  induction rules with
  | nil => intro i; rfl
  | cons r rest ih =>
      intro i
      simp only [applyFirewallRules, List.map_cons, ih]

theorem applyFirewallRules_snd (resp : Nat → Nat) :
    ∀ (rules : List FirewallRule) (i : Nat),
      (applyFirewallRules resp i rules).2 =
        (List.range rules.length).countP (fun j => decide (resp (i + j) ≠ 200)) := by
  intro rules
  induction rules with
  | nil => intro i; rfl
  | cons r rest ih =>
      intro i
      simp only [applyFirewallRules, ih, List.length_cons, List.range_succ_eq_map,
        List.countP_cons, List.countP_map]
      have hc : ((fun j => decide (resp (i + j) ≠ 200)) ∘ Nat.succ) =
          (fun j => decide (resp (i + 1 + j) ≠ 200)) := by
        funext j
        have hj : i + Nat.succ j = i + 1 + j := by omega
        rw [Function.comp_apply, hj]
      rw [hc]
      by_cases h200 : resp i = 200 <;> simp [h200, Nat.add_comm]

theorem sortByKey_sorted {α β : Type} [LinearOrder α] (d : List (α × β)) :
    (sortByKey d).Sorted (fun p q => p.1 ≤ q.1) :=
  List.sorted_insertionSort (fun p q => p.1 ≤ q.1) d

theorem sortByKey_perm {α β : Type} [LinearOrder α] (d : List (α × β)) :
    (sortByKey d).Perm d := by
  unfold sortByKey
  exact List.perm_insertionSort _ d

/-! ### Lemmas about the parser -/

theorem many1_some {p : Char → Bool} {cs tk rest : List Char}
    (h : many1 p cs = some (tk, rest)) :
    ∃ c cs', cs = c :: cs' ∧ p c = true := by
  cases cs with
  | nil => exact absurd h (by simp [many1])
  | cons c cs' =>
      by_cases hp : p c
      · exact ⟨c, cs', rfl, hp⟩
      · simp [many1, List.takeWhile_cons, hp] at h

theorem digit_not_space {c : Char} (h : pyIsDigit c = true) : pyIsSpace c = false := by
  cases hs : pyIsSpace c
  · rfl
  · exfalso
    simp only [pyIsSpace, Bool.or_eq_true, decide_eq_true_eq] at hs
    rcases hs with (((((h1 | h1) | h1) | h1) | h1) | h1) <;> subst h1 <;>
      exact absurd h (by decide)

theorem tokWs_head_digit {cs tk rest : List Char}
    (h : tokWs pyIsDigit cs = some (tk, rest)) :
    ∃ c cs', cs = c :: cs' ∧ pyIsDigit c = true := by
  unfold tokWs at h
  rcases hm : many1 pyIsDigit cs with _ | ⟨tk2, r2⟩
  · rw [hm] at h
    cases h
  · exact many1_some hm

theorem nodeLineMatch_not_blank {l : String} {caps : NodeCaps}
    (h : nodeLineMatch l = some caps) : emptyLine l = false := by
  unfold nodeLineMatch at h
  rcases ht : tokWs pyIsDigit l.data with _ | ⟨tk, rest⟩
  · rw [ht] at h
    cases h
  · obtain ⟨c, cs', hcs, hpc⟩ := tokWs_head_digit ht
    unfold emptyLine
    rw [hcs]
    simp [digit_not_space hpc]

theorem edgeLineMatch_not_blank {l : String} {caps : EdgeCaps}
    (h : edgeLineMatch l = some caps) : emptyLine l = false := by
  unfold edgeLineMatch at h
  rcases ht : edgeIntsMatch l.data with _ | q
  · rw [ht] at h
    cases h
  · unfold edgeIntsMatch at ht
    rcases hw : tokWs pyIsDigit l.data with _ | ⟨tk, rest⟩
    · rw [hw] at ht
      cases ht
    · obtain ⟨c, cs', hcs, hpc⟩ := tokWs_head_digit hw
      unfold emptyLine
      rw [hcs]
      simp [digit_not_space hpc]

theorem readNodeRecords_items (items : List (String × Option NodeRec))
    (h : ∀ it ∈ items, nodeItemOK it) :
    ∀ rest : List String,
      readNodeRecords (items.map Prod.fst ++ ("" :: rest)) =
        some (items.filterMap Prod.snd, items.countP (fun it => it.2.isNone), rest) := by
  induction items with
  | nil =>
      intro rest
      rfl
  | cons it its ih =>
      intro rest
      obtain ⟨l, o⟩ := it
      have hh : nodeItemOK (l, o) := h _ (List.mem_cons_self _ _)
      have ht : ∀ x ∈ its, nodeItemOK x := fun x hx => h x (List.mem_cons_of_mem _ hx)
      cases o with
      | some r =>
          have hp : nodeLineParse l = some r := hh
          rcases hm : nodeLineMatch l with _ | caps
          · simp [nodeLineParse, hm] at hp
          · rcases hi : pyIntOfTok caps.asidTok with _ | a
            · simp [nodeLineParse, hm, hi] at hp
            · simp only [nodeLineParse, hm, hi, Option.some.injEq] at hp
              show readNodeRecords (l :: (its.map Prod.fst ++ ("" :: rest))) = _
              simp only [readNodeRecords, hm, hi, ih ht rest, List.filterMap_cons,
                List.countP_cons]
              simp [hp]
      | none =>
          obtain ⟨hm, hb⟩ := hh
          show readNodeRecords (l :: (its.map Prod.fst ++ ("" :: rest))) = _
          simp only [readNodeRecords, hm, hb, ih ht rest, List.filterMap_cons,
            List.countP_cons]
          simp

theorem readEdgeRecords_items (items : List (String × Option EdgeRec))
    (h : ∀ it ∈ items, edgeItemOK it) :
    ∀ rest : List String,
      readEdgeRecords (items.map Prod.fst ++ ("" :: rest)) =
        some (items.filterMap Prod.snd, items.countP (fun it => it.2.isNone), rest) := by
  induction items with
  | nil =>
      intro rest
      rfl
  | cons it its ih =>
      intro rest
      obtain ⟨l, o⟩ := it
      have hh : edgeItemOK (l, o) := h _ (List.mem_cons_self _ _)
      have ht : ∀ x ∈ its, edgeItemOK x := fun x hx => h x (List.mem_cons_of_mem _ hx)
      cases o with
      | some r =>
          have hp : edgeLineParse l = some r := hh
          rcases hm : edgeLineMatch l with _ | caps
          · simp [edgeLineParse, hm] at hp
          · rcases hf : pyIntOfTok caps.fromASTok with _ | fa
            · simp [edgeLineParse, hm, hf] at hp
            · rcases hta : pyIntOfTok caps.toASTok with _ | ta
              · simp [edgeLineParse, hm, hf, hta] at hp
              · simp only [edgeLineParse, hm, hf, hta, Option.some.injEq] at hp
                show readEdgeRecords (l :: (its.map Prod.fst ++ ("" :: rest))) = _
                simp only [readEdgeRecords, hm, hf, hta, ih ht rest,
                  List.filterMap_cons, List.countP_cons]
                simp [hp]
      | none =>
          obtain ⟨hm, hb⟩ := hh
          show readEdgeRecords (l :: (its.map Prod.fst ++ ("" :: rest))) = _
          simp only [readEdgeRecords, hm, hb, ih ht rest, List.filterMap_cons,
            List.countP_cons]
          simp

theorem skipModelLines_mk (ls : List String) : skipModelLines ("" :: ls) = ls :=
  rfl

theorem skipToSection_nodes (ls : List String) :
    skipToSection nodesMarker (nodesMarker :: ls) = some ls :=
  rfl

theorem skipToSection_edges (ls : List String) :
    skipToSection edgesMarker (edgesMarker :: ls) = some ls :=
  rfl

theorem parseBrite_mkFile (hdr1 hdr2 : String) (n m : Nat) (model : String)
    (nodeItems : List (String × Option NodeRec))
    (edgeItems : List (String × Option EdgeRec))
    (h1 : topologyLineMatch hdr1 = some (n, m))
    (h2 : modelLineMatch hdr2 = some model)
    (hn : ∀ it ∈ nodeItems, nodeItemOK it)
    (he : ∀ it ∈ edgeItems, edgeItemOK it) :
    parseBrite (mkBriteFile hdr1 hdr2 (nodeItems.map Prod.fst)
        (edgeItems.map Prod.fst)) =
      some (briteEventStream n m model (nodeItems.filterMap Prod.snd)
              (edgeItems.filterMap Prod.snd),
            nodeItems.countP (fun it => it.2.isNone) +
              edgeItems.countP (fun it => it.2.isNone)) := by
  unfold mkBriteFile
  unfold parseBrite
  simp only [readline, h1, h2, skipModelLines_mk, skipToSection_nodes,
    skipToSection_edges, readNodeRecords_items nodeItems hn,
    readEdgeRecords_items edgeItems he]
  rfl

theorem forall2_node_items {ls : List String} {rs : List NodeRec}
    (h : List.Forall₂ (fun l r => nodeLineParse l = some r) ls rs) :
    (∀ it ∈ ls.zip (rs.map some), nodeItemOK it) ∧
      (ls.zip (rs.map some)).map Prod.fst = ls ∧
      (ls.zip (rs.map some)).filterMap Prod.snd = rs ∧
      (ls.zip (rs.map some)).countP (fun it => it.2.isNone) = 0 := by
  induction h with
  | nil => exact ⟨fun it hit => absurd hit (List.not_mem_nil it), rfl, rfl, rfl⟩
  | cons h1 h2 ih =>
      obtain ⟨ok, hmap, hfil, hcnt⟩ := ih
      refine ⟨?_, ?_, ?_, ?_⟩
      · intro it hit
        simp only [List.map_cons, List.zip_cons_cons, List.mem_cons] at hit
        rcases hit with rfl | hit
        · exact h1
        · exact ok it hit
      · simp only [List.map_cons, List.zip_cons_cons]
        simp [hmap]
      · simp only [List.map_cons, List.zip_cons_cons, List.filterMap_cons]
        simp [hfil]
      · simp only [List.map_cons, List.zip_cons_cons, List.countP_cons]
        simp [hcnt]

theorem forall2_edge_items {ls : List String} {rs : List EdgeRec}
    (h : List.Forall₂ (fun l r => edgeLineParse l = some r) ls rs) :
    (∀ it ∈ ls.zip (rs.map some), edgeItemOK it) ∧
      (ls.zip (rs.map some)).map Prod.fst = ls ∧
      (ls.zip (rs.map some)).filterMap Prod.snd = rs ∧
      (ls.zip (rs.map some)).countP (fun it => it.2.isNone) = 0 := by
  induction h with
  | nil => exact ⟨fun it hit => absurd hit (List.not_mem_nil it), rfl, rfl, rfl⟩
  | cons h1 h2 ih =>
      obtain ⟨ok, hmap, hfil, hcnt⟩ := ih
      refine ⟨?_, ?_, ?_, ?_⟩
      · intro it hit
        simp only [List.map_cons, List.zip_cons_cons, List.mem_cons] at hit
        rcases hit with rfl | hit
        · exact h1
        · exact ok it hit
      · simp only [List.map_cons, List.zip_cons_cons]
        simp [hmap]
      · simp only [List.map_cons, List.zip_cons_cons, List.filterMap_cons]
        simp [hfil]
      · simp only [List.map_cons, List.zip_cons_cons, List.countP_cons]
        simp [hcnt]

theorem parseBrite_mkFile_wf (hdr1 hdr2 : String) (n m : Nat) (model : String)
    {nodeLines : List String} {nodeRecs : List NodeRec}
    {edgeLines : List String} {edgeRecs : List EdgeRec}
    (h1 : topologyLineMatch hdr1 = some (n, m))
    (h2 : modelLineMatch hdr2 = some model)
    (hn : List.Forall₂ (fun l r => nodeLineParse l = some r) nodeLines nodeRecs)
    (he : List.Forall₂ (fun l r => edgeLineParse l = some r) edgeLines edgeRecs) :
    parseBrite (mkBriteFile hdr1 hdr2 nodeLines edgeLines) =
      some (briteEventStream n m model nodeRecs edgeRecs, 0) := by
  obtain ⟨okn, hmapn, hfiln, hcntn⟩ := forall2_node_items hn
  obtain ⟨oke, hmape, hfile, hcnte⟩ := forall2_edge_items he
  have h := parseBrite_mkFile hdr1 hdr2 n m model
    (nodeLines.zip (nodeRecs.map some)) (edgeLines.zip (edgeRecs.map some))
    h1 h2 okn oke
  rw [hmapn, hmape, hfiln, hfile, hcntn, hcnte] at h
  simpa using h

theorem filterMap_range_pick (e : BriteEvent) (i : Nat) :
    ∀ n, ((List.range n).map (fun j => (j, e))).filterMap
        (fun p => if p.1 = i then some p.2 else none) =
      if i < n then [e] else [] := by
  intro n
  induction n with
  | zero => rfl
  | succ n ih =>
      rw [List.range_succ, List.map_append, List.filterMap_append, ih]
      by_cases h : i < n
      · have h1 : i < n + 1 := by omega
        have h2 : ¬(n = i) := by omega
        simp [h, h1, h2]
      · by_cases h2 : i = n
        · subst h2
          simp [h]
        · have h3 : ¬(i < n + 1) := by omega
          have h4 : ¬(n = i) := by omega
          simp [h, h3, h4]

theorem observerView_fanout (numObs : Nat) (evs : List BriteEvent) :
    ∀ i, i < numObs → observerView i (fanoutTrace numObs evs) = evs := by
  intro i hi
  induction evs with
  | nil => rfl
  | cons e es ih =>
      unfold fanoutTrace observerView at ih ⊢
      simp only [List.flatMap_cons, List.filterMap_append]
      rw [filterMap_range_pick e i numObs, ih]
      simp [hi]

theorem countP_briteEventStream (n m : Nat) (model : String)
    (nodeRecs : List NodeRec) (edgeRecs : List EdgeRec) :
    (briteEventStream n m model nodeRecs edgeRecs).countP isAddNode =
        nodeRecs.length ∧
      (briteEventStream n m model nodeRecs edgeRecs).countP isAddEdge =
        edgeRecs.length ∧
      (briteEventStream n m model nodeRecs edgeRecs).countP isWriteFooter = 1 := by
  unfold briteEventStream
  have h1 : (isAddNode ∘ nodeEvent) = fun _ : NodeRec => true := funext fun _ => rfl
  have h2 : (isAddNode ∘ edgeEvent) = fun _ : EdgeRec => false := funext fun _ => rfl
  have h3 : (isAddEdge ∘ nodeEvent) = fun _ : NodeRec => false := funext fun _ => rfl
  have h4 : (isAddEdge ∘ edgeEvent) = fun _ : EdgeRec => true := funext fun _ => rfl
  have h5 : (isWriteFooter ∘ nodeEvent) = fun _ : NodeRec => false :=
    funext fun _ => rfl
  have h6 : (isWriteFooter ∘ edgeEvent) = fun _ : EdgeRec => false :=
    funext fun _ => rfl
  refine ⟨?_, ?_, ?_⟩ <;>
    simp [List.countP_cons, List.countP_append, List.countP_map, h1, h2, h3, h4,
      h5, h6, List.countP_true, List.countP_false, isAddNode, isAddEdge,
      isWriteFooter]

/-! ### Lemmas about the dictionary operations -/

section PyDict

variable {α β : Type} [DecidableEq α]

theorem pyLookup_pySet_self (k : α) (v : β) (d : List (α × β)) :
    pyLookup k (pySet k v d) = some v := by
  induction d with
  | nil => simp [pySet, pyLookup]
  | cons p rest ih =>
      obtain ⟨k₀, v₀⟩ := p
      by_cases hk : k₀ = k
      · subst hk
        simp [pySet, pyLookup]
      · simp [pySet, pyLookup, hk, ih]

theorem pyLookup_pySet_ne {k k' : α} (h : k' ≠ k) (v : β) (d : List (α × β)) :
    pyLookup k' (pySet k v d) = pyLookup k' d := by
  induction d with
  | nil => simp [pySet, pyLookup, Ne.symm h]
  | cons p rest ih =>
      obtain ⟨k₀, v₀⟩ := p
      by_cases hk : k₀ = k
      · subst hk
        simp [pySet, pyLookup, Ne.symm h]
      · simp [pySet, pyLookup, hk, ih]

theorem pyLookup_some_mem {k : α} {v : β} {d : List (α × β)}
    (h : pyLookup k d = some v) : (k, v) ∈ d := by
  induction d with
  | nil => cases h
  | cons p rest ih =>
      obtain ⟨k₀, v₀⟩ := p
      by_cases hk : k₀ = k
      · subst hk
        simp only [pyLookup, if_true] at h
        rw [Option.some.injEq] at h
        subst h
        exact List.mem_cons_self _ _
      · simp only [pyLookup, if_neg hk] at h
        exact List.mem_cons_of_mem _ (ih h)

theorem pyLookup_none_iff {k : α} {d : List (α × β)} :
    pyLookup k d = none ↔ k ∉ d.map Prod.fst := by
  induction d with
  | nil => simp [pyLookup]
  | cons p rest ih =>
      obtain ⟨k₀, v₀⟩ := p
      by_cases hk : k₀ = k
      · subst hk
        simp [pyLookup]
      · simp [pyLookup, hk, ih, Ne.symm hk]

theorem keys_pySet_of_some {k : α} {v₀ : β} {d : List (α × β)}
    (h : pyLookup k d = some v₀) (v : β) :
    (pySet k v d).map Prod.fst = d.map Prod.fst := by
  induction d with
  | nil => cases h
  | cons p rest ih =>
      obtain ⟨k₀, v₀'⟩ := p
      by_cases hk : k₀ = k
      · subst hk
        simp [pySet]
      · simp only [pyLookup, if_neg hk] at h
        simp [pySet, hk, ih h]

theorem pySet_of_none {k : α} {d : List (α × β)} (h : pyLookup k d = none)
    (v : β) : pySet k v d = d ++ [(k, v)] := by
  induction d with
  | nil => rfl
  | cons p rest ih =>
      obtain ⟨k₀, v₀⟩ := p
      by_cases hk : k₀ = k
      · subst hk
        simp [pyLookup] at h
      · simp only [pyLookup, if_neg hk] at h
        simp [pySet, hk, ih h]

theorem pyLookup_append_some {k : α} {v : β} {d : List (α × β)}
    (h : pyLookup k d = some v) (l : List (α × β)) :
    pyLookup k (d ++ l) = some v := by
  induction d with
  | nil => cases h
  | cons p rest ih =>
      obtain ⟨k₀, v₀⟩ := p
      by_cases hk : k₀ = k
      · subst hk
        simp only [pyLookup, if_true] at h
        rw [Option.some.injEq] at h
        simp [pyLookup, h]
      · simp only [pyLookup, if_neg hk] at h
        simp [pyLookup, hk, ih h]

theorem pyLookup_append_none {k : α} {d : List (α × β)}
    (h : pyLookup k d = none) (l : List (α × β)) :
    pyLookup k (d ++ l) = pyLookup k l := by
  induction d with
  | nil => rfl
  | cons p rest ih =>
      obtain ⟨k₀, v₀⟩ := p
      by_cases hk : k₀ = k
      · subst hk
        simp [pyLookup] at h
      · simp only [pyLookup, if_neg hk] at h
        simp [pyLookup, hk, ih h]

theorem mem_pySet {p : α × β} {k : α} {v : β} {d : List (α × β)}
    (h : p ∈ pySet k v d) : p = (k, v) ∨ p ∈ d := by
  induction d with
  | nil =>
      simp [pySet] at h
      exact Or.inl h
  | cons q rest ih =>
      obtain ⟨k₀, v₀⟩ := q
      by_cases hk : k₀ = k
      · subst hk
        simp only [pySet, if_pos rfl] at h
        rcases List.mem_cons.mp h with h' | h'
        · exact Or.inl h'
        · exact Or.inr (List.mem_cons_of_mem _ h')
      · simp only [pySet, if_neg hk] at h
        rcases List.mem_cons.mp h with h' | h'
        · exact Or.inr (h' ▸ List.mem_cons_self _ _)
        · rcases ih h' with h'' | h''
          · exact Or.inl h''
          · exact Or.inr (List.mem_cons_of_mem _ h'')

theorem pySet_found_decomp {k : α} {v : β} {d : List (α × β)}
    (h : pyLookup k d = some v) (v' : β) :
    ∃ d₁ d₂, d = d₁ ++ (k, v) :: d₂ ∧ pySet k v' d = d₁ ++ (k, v') :: d₂ := by
  induction d with
  | nil => cases h
  | cons p rest ih =>
      obtain ⟨k₀, v₀⟩ := p
      by_cases hk : k₀ = k
      · subst hk
        simp only [pyLookup, if_true] at h
        rw [Option.some.injEq] at h
        subst h
        exact ⟨[], rest, rfl, by simp [pySet]⟩
      · simp only [pyLookup, if_neg hk] at h
        obtain ⟨d₁, d₂, hd, hs⟩ := ih h
        exact ⟨(k₀, v₀) :: d₁, d₂, by simp [hd], by simp [pySet, hk, hs]⟩

end PyDict

/-! ### The clustering invariant -/

theorem map_switchname_keys (d : List (Int × AutonomousSystem)) :
    d.map (fun p => switchname p.1) = (d.map Prod.fst).map switchname := by
  rw [List.map_map]
  rfl

theorem initial_inv : StateInv initialBriteState :=
  ⟨by simp [initialBriteState], by simp [initialBriteState], rfl⟩

theorem briteAddNode_inv {st st' : BriteState} {nid : Nat} {aid : Int}
    {ty : String} (hs : briteAddNode st nid aid ty = some st')
    (h : StateInv st) : StateInv st' := by
  obtain ⟨hnd, hent, hsw⟩ := h
  obtain ⟨hw, hst, hc | hc⟩ := briteAddNode_eq_some hs
  · obtain ⟨autsys, hlk, rfl⟩ := hc
    have hkeys := keys_pySet_of_some hlk
      { autsys with botdict := pySet nid (botname nid) autsys.botdict }
    refine ⟨?_, ?_, ?_⟩
    · show ((pySet aid _ st.autonomousSystems).map Prod.fst).Nodup
      rw [hkeys]
      exact hnd
    · intro p hp
      rcases mem_pySet hp with rfl | hp'
      · obtain ⟨ha, hsw', hbot⟩ := hent _ (pyLookup_some_mem hlk)
        refine ⟨ha, hsw', ?_⟩
        intro q hq
        rcases mem_pySet hq with rfl | hq'
        · rfl
        · exact hbot q hq'
      · exact hent p hp'
    · show st.switches = _
      rw [map_switchname_keys, hkeys, ← map_switchname_keys]
      exact hsw
  · obtain ⟨hlk, rfl⟩ := hc
    have haid : aid ∉ st.autonomousSystems.map Prod.fst := pyLookup_none_iff.mp hlk
    refine ⟨?_, ?_, ?_⟩
    · show ((st.autonomousSystems ++ _).map Prod.fst).Nodup
      rw [List.map_append]
      exact List.Nodup.append hnd (List.nodup_singleton _)
        (List.disjoint_singleton.mpr haid)
    · intro p hp
      rcases List.mem_append.mp hp with hp' | hp'
      · exact hent p hp'
      · rcases List.mem_singleton.mp hp' with rfl
        refine ⟨rfl, rfl, ?_⟩
        intro q hq
        rcases List.mem_singleton.mp hq with rfl
        rfl
    · show st.switches ++ [switchname aid] = _
      rw [List.map_append, ← hsw]
      rfl

theorem briteAddNode_member_mono {st st' : BriteState} {nid : Nat} {aid : Int}
    {ty : String} (hs : briteAddNode st nid aid ty = some st') :
    ∀ nid' aid', memberOf nid' aid' st → memberOf nid' aid' st' := by
  intro nid' aid' hm
  obtain ⟨a, hla, hba⟩ := hm
  obtain ⟨hw, hst, hc | hc⟩ := briteAddNode_eq_some hs
  · obtain ⟨autsys, hlk, rfl⟩ := hc
    by_cases haid : aid' = aid
    · subst haid
      have ha : a = autsys := Option.some.inj (hla.symm.trans hlk)
      subst ha
      refine ⟨_, pyLookup_pySet_self _ _ _, ?_⟩
      by_cases hnid : nid' = nid
      · subst hnid
        show (pyLookup nid' (pySet nid' (botname nid') a.botdict)).isSome = true
        rw [pyLookup_pySet_self]
        rfl
      · show (pyLookup nid' (pySet nid (botname nid) a.botdict)).isSome = true
        rw [pyLookup_pySet_ne hnid]
        exact hba
    · exact ⟨a, by rw [show ({ st with
          autonomousSystems := pySet aid _ st.autonomousSystems,
          hosts := st.hosts ++ [botname nid],
          links := st.links ++ [(botname nid, autsys.switch)] } :
            BriteState).autonomousSystems = pySet aid _ st.autonomousSystems from rfl,
        pyLookup_pySet_ne haid]; exact hla, hba⟩
  · obtain ⟨hlk, rfl⟩ := hc
    exact ⟨a, pyLookup_append_some hla _, hba⟩

theorem briteAddNode_member_self {st st' : BriteState} {nid : Nat} {aid : Int}
    {ty : String} (hs : briteAddNode st nid aid ty = some st') :
    memberOf nid aid st' := by
  obtain ⟨hw, hst, hc | hc⟩ := briteAddNode_eq_some hs
  · obtain ⟨autsys, hlk, rfl⟩ := hc
    refine ⟨_, pyLookup_pySet_self _ _ _, ?_⟩
    show (pyLookup nid (pySet nid (botname nid) autsys.botdict)).isSome = true
    rw [pyLookup_pySet_self]
    rfl
  · obtain ⟨hlk, rfl⟩ := hc
    refine ⟨AutonomousSystem.mk aid (pySet nid (botname nid) [])
      (switchname aid), ?_, ?_⟩
    · show pyLookup aid (st.autonomousSystems ++ _) = _
      rw [pyLookup_append_none hlk]
      simp [pyLookup]
    · simp [pyLookup, pySet]

theorem applyBriteEvent_step {st st' : BriteState} {e : BriteEvent}
    (hs : applyBriteEvent st e = some st') (hinv : StateInv st) :
    StateInv st' ∧ (∀ nid aid, memberOf nid aid st → memberOf nid aid st') ∧
      (∀ nid aid ty, e = BriteEvent.addNode nid aid ty → memberOf nid aid st') ∧
      (∀ aid, (pyLookup aid st'.autonomousSystems).isSome = true →
        (pyLookup aid st.autonomousSystems).isSome = true ∨
          ∃ nid ty, e = BriteEvent.addNode nid aid ty) := by
  cases e with
  | writeHeader n m model =>
      cases Option.some.inj hs
      refine ⟨hinv, fun _ _ m => m, ?_, fun _ h => Or.inl h⟩
      intro _ _ _ h
      cases h
  | writeFooter =>
      cases Option.some.inj hs
      refine ⟨hinv, fun _ _ m => m, ?_, fun _ h => Or.inl h⟩
      intro _ _ _ h
      cases h
  | addEdge eid f t d b fa ta ty =>
      have h' : briteAddEdge st eid f t d b fa ta ty = some st' := hs
      obtain ⟨-, -, rfl⟩ := briteAddEdge_eq_some h'
      refine ⟨hinv, fun _ _ m => m, ?_, fun _ h => Or.inl h⟩
      intro _ _ _ h
      cases h
  | addNode nid aid ty =>
      have h' : briteAddNode st nid aid ty = some st' := hs
      refine ⟨briteAddNode_inv h' hinv, briteAddNode_member_mono h', ?_, ?_⟩
      · intro nid' aid' ty' heq
        cases heq
        exact briteAddNode_member_self h'
      · intro aid' hsome
        obtain ⟨hw, hst, hc | hc⟩ := briteAddNode_eq_some h'
        · obtain ⟨autsys, hlk, rfl⟩ := hc
          by_cases haid : aid' = aid
          · subst haid
            rw [hlk]
            exact Or.inl rfl
          · rw [show ({ st with
                autonomousSystems := pySet aid _ st.autonomousSystems,
                hosts := st.hosts ++ [botname nid],
                links := st.links ++ [(botname nid, autsys.switch)] } :
                  BriteState).autonomousSystems =
                pySet aid _ st.autonomousSystems from rfl,
              pyLookup_pySet_ne haid] at hsome
            exact Or.inl hsome
        · obtain ⟨hlk, rfl⟩ := hc
          rcases hcase : pyLookup aid' st.autonomousSystems with _ | a
          · rw [show ({ st with
                autonomousSystems := st.autonomousSystems ++ _,
                hosts := st.hosts ++ [botname nid],
                switches := st.switches ++ [switchname aid],
                links := st.links ++ [(botname nid, switchname aid)] } :
                  BriteState).autonomousSystems =
                st.autonomousSystems ++ _ from rfl,
              pyLookup_append_none hcase] at hsome
            by_cases haid : aid = aid'
            · exact Or.inr ⟨nid, ty, by rw [haid]⟩
            · simp [pyLookup, haid] at hsome
          · exact Or.inl rfl

theorem applyBriteEvents_master :
    ∀ (evs : List BriteEvent) (st st' : BriteState), StateInv st →
      applyBriteEvents st evs = some st' →
      StateInv st' ∧ (∀ nid aid, memberOf nid aid st → memberOf nid aid st') ∧
        (∀ nid aid ty, BriteEvent.addNode nid aid ty ∈ evs → memberOf nid aid st') ∧
        (∀ aid, (pyLookup aid st'.autonomousSystems).isSome = true →
          (pyLookup aid st.autonomousSystems).isSome = true ∨
            ∃ nid ty, BriteEvent.addNode nid aid ty ∈ evs) := by
  intro evs
  induction evs with
  | nil =>
      intro st st' hinv h
      cases Option.some.inj h
      exact ⟨hinv, fun _ _ m => m, by simp, fun _ h => Or.inl h⟩
  | cons e es ih =>
      intro st st' hinv h
      unfold applyBriteEvents at h
      rcases he : applyBriteEvent st e with _ | st1
      · rw [he] at h
        exact absurd h (by simp)
      · rw [he] at h
        obtain ⟨hinv1, hmono1, hest1, hprov1⟩ := applyBriteEvent_step he hinv
        obtain ⟨hinv2, hmono2, hest2, hprov2⟩ := ih st1 st' hinv1 h
        refine ⟨hinv2, fun nid aid m => hmono2 _ _ (hmono1 _ _ m), ?_, ?_⟩
        · intro nid aid ty hm
          rcases List.mem_cons.mp hm with heq | hm'
          · exact hmono2 _ _ (hest1 nid aid ty heq.symm)
          · exact hest2 nid aid ty hm'
        · intro aid hsome
          rcases hprov2 aid hsome with hs1 | ⟨nid, ty, hmem⟩
          · rcases hprov1 aid hs1 with hs0 | ⟨nid, ty, heq⟩
            · exact Or.inl hs0
            · exact Or.inr ⟨nid, ty, heq ▸ List.mem_cons_self _ _⟩
          · exact Or.inr ⟨nid, ty, List.mem_cons_of_mem _ hmem⟩

/-! ### The footer relinking -/

theorem applyBriteEvents_append (st : BriteState) (l₁ l₂ : List BriteEvent) :
    applyBriteEvents st (l₁ ++ l₂) =
      match applyBriteEvents st l₁ with
      | none => none
      | some s => applyBriteEvents s l₂ := by
  induction l₁ generalizing st with
  | nil => rfl
  | cons e es ih =>
      simp only [List.cons_append, applyBriteEvents]
      rcases applyBriteEvent st e with _ | st1
      · rfl
      · exact ih st1

theorem briteAddNode_succeeds {st : BriteState} (hw : st.wroteHeader = true)
    (hs : st.started = false) (nid : Nat) (aid : Int) (ty : String) :
    ∃ st', briteAddNode st nid aid ty = some st' := by
  have h : (briteAddNode st nid aid ty).isSome = true := by
    unfold briteAddNode
    rw [hw, hs]
    rcases pyLookup aid st.autonomousSystems with _ | a <;> rfl
  exact Option.isSome_iff_exists.mp h

theorem briteAddNode_effects {st st' : BriteState} {nid : Nat} {aid : Int}
    {ty : String} (hs : briteAddNode st nid aid ty = some st')
    (hinv : StateInv st)
    (hfresh : nid ∉ allMemberKeys st.autonomousSystems) :
    st'.links = st.links ++ [(botname nid, switchname aid)] ∧
      (allMemberKeys st'.autonomousSystems).Perm
        (allMemberKeys st.autonomousSystems ++ [nid]) ∧
      (allMemberLinks st'.autonomousSystems).Perm
        (allMemberLinks st.autonomousSystems ++ [(switchname aid, botname nid)]) := by
  obtain ⟨hnd, hent, hswl⟩ := hinv
  obtain ⟨hw, hst, hc | hc⟩ := briteAddNode_eq_some hs
  · obtain ⟨autsys, hlk, rfl⟩ := hc
    obtain ⟨ha, hsw, hbot⟩ := hent _ (pyLookup_some_mem hlk)
    have hsw' : autsys.switch = switchname aid := hsw
    have hnidbot : pyLookup nid autsys.botdict = none := by
      rw [pyLookup_none_iff]
      intro hmem'
      exact hfresh (List.mem_flatMap.mpr ⟨(aid, autsys), pyLookup_some_mem hlk, hmem'⟩)
    have hbotset : pySet nid (botname nid) autsys.botdict =
        autsys.botdict ++ [(nid, botname nid)] := pySet_of_none hnidbot _
    obtain ⟨d₁, d₂, hd, hset⟩ := pySet_found_decomp hlk
      { autsys with botdict := pySet nid (botname nid) autsys.botdict }
    refine ⟨?_, ?_, ?_⟩
    · show st.links ++ [(botname nid, autsys.switch)] = _
      rw [hsw]
    · show (allMemberKeys (pySet aid _ st.autonomousSystems)).Perm _
      rw [hset, hd]
      unfold allMemberKeys
      simp only [List.flatMap_append, List.flatMap_cons, hbotset, List.map_append]
      rw [List.perm_iff_count]
      intro x
      simp only [List.count_append, List.count_cons, List.count_nil,
        List.map_cons, List.map_nil]
      omega
    · show (allMemberLinks (pySet aid _ st.autonomousSystems)).Perm _
      rw [hset, hd]
      unfold allMemberLinks
      simp only [List.flatMap_append, List.flatMap_cons, hbotset, List.map_append,
        hsw]
      rw [List.perm_iff_count]
      intro x
      simp only [List.count_append, List.count_cons, List.count_nil,
        List.map_cons, List.map_nil]
      simp only [hsw']
      omega
  · obtain ⟨hlk, rfl⟩ := hc
    refine ⟨rfl, ?_, ?_⟩
    · show (allMemberKeys (st.autonomousSystems ++ _)).Perm _
      unfold allMemberKeys
      simp [List.flatMap_append, pySet]
    · show (allMemberLinks (st.autonomousSystems ++ _)).Perm _
      unfold allMemberLinks
      simp [List.flatMap_append, pySet]

theorem nodePhase (nds : List NodeRec) :
    ∀ st : BriteState, StateInv st → st.wroteHeader = true → st.started = false →
      (∀ r ∈ nds, r.nodeid ∉ allMemberKeys st.autonomousSystems) →
      (nds.map NodeRec.nodeid).Nodup →
      ∃ st', applyBriteEvents st (nds.map nodeEvent) = some st' ∧
        StateInv st' ∧ st'.wroteHeader = true ∧ st'.started = false ∧
        st'.links = st.links ++
          nds.map (fun r => (botname r.nodeid, switchname r.asid)) ∧
        (allMemberKeys st'.autonomousSystems).Perm
          (allMemberKeys st.autonomousSystems ++ nds.map NodeRec.nodeid) ∧
        (allMemberLinks st'.autonomousSystems).Perm
          (allMemberLinks st.autonomousSystems ++
            nds.map (fun r => (switchname r.asid, botname r.nodeid))) := by
  induction nds with
  | nil =>
      intro st hinv hw hs _ _
      exact ⟨st, rfl, hinv, hw, hs, by simp, by simp, by simp⟩
  | cons r rds ih =>
      intro st hinv hw hs hfresh hnodup
      obtain ⟨st1, hst1⟩ := briteAddNode_succeeds hw hs r.nodeid r.asid r.nodetype
      have hinv1 := briteAddNode_inv hst1 hinv
      have hpres := briteAddNode_preserves hst1
      obtain ⟨hl1, hk1, hml1⟩ :=
        briteAddNode_effects hst1 hinv (hfresh r (List.mem_cons_self _ _))
      rw [List.map_cons] at hnodup
      have hnodup' := List.nodup_cons.mp hnodup
      have hfresh1 : ∀ x ∈ rds, x.nodeid ∉ allMemberKeys st1.autonomousSystems := by
        intro x hx hmem
        rcases List.mem_append.mp (hk1.mem_iff.mp hmem) with h' | h'
        · exact hfresh x (List.mem_cons_of_mem _ hx) h'
        · have hxr : x.nodeid = r.nodeid := List.mem_singleton.mp h'
          exact hnodup'.1 (hxr ▸ List.mem_map_of_mem NodeRec.nodeid hx)
      obtain ⟨st', hrun, hinv', hw', hs', hl', hk', hml'⟩ :=
        ih st1 hinv1 (hpres.1.trans hw) (hpres.2.1.trans hs) hfresh1 hnodup'.2
      refine ⟨st', ?_, hinv', hw', hs', ?_, ?_, ?_⟩
      · show applyBriteEvents st (nodeEvent r :: rds.map nodeEvent) = some st'
        unfold applyBriteEvents
        rw [show applyBriteEvent st (nodeEvent r) = some st1 from hst1]
        exact hrun
      · rw [hl', hl1]
        simp
      · rw [List.perm_iff_count]
        intro x
        have c1 := hk'.count_eq x
        have c2 := hk1.count_eq x
        simp only [List.count_append, List.count_cons, List.count_nil,
          List.map_cons] at c1 c2 ⊢
        omega
      · rw [List.perm_iff_count]
        intro x
        have c1 := hml'.count_eq x
        have c2 := hml1.count_eq x
        simp only [List.count_append, List.count_cons, List.count_nil,
          List.map_cons] at c1 c2 ⊢
        omega

theorem edgePhase (eds : List EdgeRec) :
    ∀ st : BriteState, st.wroteHeader = true → st.started = false →
      ∃ st', applyBriteEvents st (eds.map edgeEvent) = some st' ∧
        st'.autonomousSystems = st.autonomousSystems ∧ st'.links = st.links ∧
        st'.wroteHeader = true ∧ st'.started = false := by
  induction eds with
  | nil =>
      intro st hw hs
      exact ⟨st, rfl, rfl, rfl, hw, hs⟩
  | cons e rest ih =>
      intro st hw hs
      have hstep := briteAddEdge_of_ready hw hs e.edgeid e.fromNode e.toNode
        e.delay e.bandwidth e.fromAS e.toAS e.edgetype
      obtain ⟨st', hrun, hauto, hlinks, hw', hs'⟩ :=
        ih { st with firewallRules := st.firewallRules ++
              [FirewallRule.mk e.fromNode e.toNode allowAction,
               FirewallRule.mk e.toNode e.fromNode allowAction] } hw hs
      refine ⟨st', ?_, hauto, hlinks, hw', hs'⟩
      show applyBriteEvents st (edgeEvent e :: rest.map edgeEvent) = some st'
      unfold applyBriteEvents
      rw [show applyBriteEvent st (edgeEvent e) = some _ from hstep]
      exact hrun

theorem memberLinks_perm (d : List (Int × AutonomousSystem)) :
    (memberLinks d).Perm (allMemberLinks d) := by
  unfold memberLinks allMemberLinks
  have h1 : (((sortByKey d).flatMap
        (fun p => (sortByKey p.2.botdict).map (fun q => (p.2.switch, q.2))))).Perm
      ((sortByKey d).flatMap (fun p => p.2.botdict.map (fun q => (p.2.switch, q.2)))) :=
    List.Perm.flatMap_left _ (fun a _ => (sortByKey_perm a.2.botdict).map _)
  exact h1.trans ((sortByKey_perm d).flatMap_right _)

/-! ### Claim theorems -/

/-- **C2.** For every parsed edge `(a, b)`, `addEdge` appends exactly the
two firewall rules `(a → b, ALLOW)` and `(b → a, ALLOW)` to the accumulated
rule list, and in every state reachable from a fresh topology every
accumulated rule has action `ALLOW` and no other action. -/
theorem addEdge_two_allow_rules :
    (∀ (st st' : BriteState) (eid f t : Nat) (d b : String) (fa ta : Int)
        (ty : String),
      briteAddEdge st eid f t d b fa ta ty = some st' →
      st'.firewallRules = st.firewallRules ++
        [FirewallRule.mk f t allowAction, FirewallRule.mk t f allowAction]) ∧
    (∀ (evs : List BriteEvent) (st : BriteState),
      applyBriteEvents initialBriteState evs = some st →
      ∀ r ∈ st.firewallRules, r.action = allowAction) := by
  constructor
  · intro st st' eid f t d b fa ta ty h
    obtain ⟨-, -, rfl⟩ := briteAddEdge_eq_some h
    rfl
  · intro evs st h
    exact applyBriteEvents_rules_allow evs initialBriteState st h (by intro r hr; cases hr)

/-- Witness for C2 at a concrete edge `(1, 2)`. -/
theorem addEdge_two_allow_rules_w :
    stC2.firewallRules = headerState.firewallRules ++
        [FirewallRule.mk 1 2 allowAction, FirewallRule.mk 2 1 allowAction] ∧
      (∀ r ∈ stC2.firewallRules, r.action = allowAction) :=
  ⟨addEdge_two_allow_rules.1 headerState stC2 0 1 2 "0.77" "10.00" 1 2 "E_RT" rfl,
   addEdge_two_allow_rules.2
     [BriteEvent.writeHeader 3 5 "RTWaxman",
      BriteEvent.addEdge 0 1 2 "0.77" "10.00" 1 2 "E_RT"] stC2 rfl⟩

/-- **C5, counterexample.** With AS ids first encountered in the order
3, 1, 2, the backbone built at `writeFooter` chains the switches in
ascending-key dictionary order `sw1–sw2–sw3`, not in the first-seen order
`sw3–sw1–sw2` claimed by the spec. -/
theorem backbone_not_first_seen :
    applyBriteEvents initialBriteState evsBackbone = some stBackbone ∧
      stBackbone.autonomousSystems.map Prod.fst = [3, 1, 2] ∧
      (briteConnectSwitchesToSwitches stBackbone).links =
        stBackbone.links ++
          [(switchname 1, switchname 2), (switchname 2, switchname 3)] ∧
      firstSeenChainLinks stBackbone =
        [(switchname 3, switchname 1), (switchname 1, switchname 2)] ∧
      chainLinks (sortByKey stBackbone.autonomousSystems) ≠
        firstSeenChainLinks stBackbone := by
  refine ⟨rfl, rfl, rfl, rfl, by decide⟩

/-- **C5, amended.** At `writeFooter` the AS switches are linked pairwise
following the dictionary iteration order of the AS-id keys — ascending AS
id, a permutation of (but in general different from) first-seen order —
and the backbone is built without consulting the parsed edges: `addEdge`
changes neither the AS map, nor the links, nor the switches. -/
theorem backbone_sorted_chain :
    (∀ st : BriteState, (briteConnectSwitchesToSwitches st).links =
        st.links ++ chainLinks (sortByKey st.autonomousSystems)) ∧
    (∀ d : List (Int × AutonomousSystem),
        (sortByKey d).Sorted (fun p q => p.1 ≤ q.1) ∧ (sortByKey d).Perm d) ∧
    (∀ (st st' : BriteState) (eid f t : Nat) (dl b : String) (fa ta : Int)
        (ty : String),
      briteAddEdge st eid f t dl b fa ta ty = some st' →
      st'.autonomousSystems = st.autonomousSystems ∧ st'.links = st.links ∧
        st'.switches = st.switches) := by
  refine ⟨fun st => rfl, fun d => ⟨sortByKey_sorted d, sortByKey_perm d⟩, ?_⟩
  intro st st' eid f t dl b fa ta ty h
  obtain ⟨-, -, rfl⟩ := briteAddEdge_eq_some h
  exact ⟨rfl, rfl, rfl⟩

/-- Witness for the amended C5 at a concrete `addEdge`. -/
theorem backbone_sorted_chain_w :
    stC2.autonomousSystems = headerState.autonomousSystems ∧
      stC2.links = headerState.links ∧ stC2.switches = headerState.switches :=
  backbone_sorted_chain.2.2 headerState stC2 0 1 2 "0.77" "10.00" 1 2 "E_RT" rfl

/-- **C7.** Once `start()` has run, the lifecycle state is started and every
mutating builder call (`addNode`, `addEdge`) fails with the `StateError`
modelled by `none` — the failing check precedes every mutation in the
source, so the accumulated state is left unchanged; `start` itself
preserves the accumulated AS map, hosts and rule list. -/
theorem started_blocks_mutators :
    ∀ (st : BriteState) (resp : Nat → Nat) (fwStatus : Nat),
      (briteStart st resp fwStatus).1.started = true ∧
      (briteStart st resp fwStatus).1.autonomousSystems = st.autonomousSystems ∧
      (briteStart st resp fwStatus).1.firewallRules = st.firewallRules ∧
      (briteStart st resp fwStatus).1.hosts = st.hosts ∧
      (∀ (nid : Nat) (aid : Int) (ty : String),
        briteAddNode (briteStart st resp fwStatus).1 nid aid ty = none) ∧
      (∀ (eid f t : Nat) (d b : String) (fa ta : Int) (ty : String),
        briteAddEdge (briteStart st resp fwStatus).1 eid f t d b fa ta ty = none) := by
  intro st resp fwStatus
  refine ⟨rfl, rfl, rfl, rfl, ?_, ?_⟩
  · intro nid aid ty
    unfold briteAddNode
    split
    · rfl
    · rfl
  · intro eid f t d b fa ta ty
    unfold briteAddEdge
    split
    · rfl
    · rfl

/-- **C8, counterexample.** `writeFooter` is not guarded by the
header-seen flag: on a fresh topology whose header was never written it
succeeds (here it is even a no-op, as no AS exists yet) instead of failing
with a `StateError`. -/
theorem writeFooter_before_header_succeeds :
    initialBriteState.wroteHeader = false ∧
      applyBriteEvent initialBriteState BriteEvent.writeFooter =
        some (briteWriteFooter initialBriteState) ∧
      briteWriteFooter initialBriteState = initialBriteState :=
  ⟨rfl, rfl, rfl⟩

/-- **C8, amended.** Before `writeHeader` has been seen, `addNode` and
`addEdge` fail with the `StateError` of the observer base contract
(modelled by `none`); `writeFooter`, however, performs no header check and
never raises. -/
theorem header_guard (st : BriteState) (h : st.wroteHeader = false) :
    (∀ (nid : Nat) (aid : Int) (ty : String), briteAddNode st nid aid ty = none) ∧
    (∀ (eid f t : Nat) (d b : String) (fa ta : Int) (ty : String),
      briteAddEdge st eid f t d b fa ta ty = none) ∧
    applyBriteEvent st BriteEvent.writeFooter = some (briteWriteFooter st) := by
  refine ⟨?_, ?_, rfl⟩
  · intro nid aid ty
    unfold briteAddNode
    rw [h]
    rfl
  · intro eid f t d b fa ta ty
    unfold briteAddEdge
    rw [h]
    rfl

/-- Witness for the amended C8 on a fresh topology. -/
theorem header_guard_w :
    briteAddNode initialBriteState 1 1 rtNode = none ∧
      briteAddEdge initialBriteState 0 1 2 "0.77" "10.00" 1 2 "E_RT" = none ∧
      applyBriteEvent initialBriteState BriteEvent.writeFooter =
        some (briteWriteFooter initialBriteState) :=
  ⟨(header_guard initialBriteState rfl).1 1 1 rtNode,
   (header_guard initialBriteState rfl).2.1 0 1 2 "0.77" "10.00" 1 2 "E_RT",
   (header_guard initialBriteState rfl).2.2⟩

/-- **C9.** `start()` is fail-open: whatever status each rule-install call
returns, the sequence never aborts — every rule is POSTed in order, the
firewall-enable call is still issued afterwards, each non-200 response
(including a non-200 firewall enable) only increments the warning count,
and the topology ends in the started state. -/
theorem start_fail_open :
    ∀ (st : BriteState) (resp : Nat → Nat) (fwStatus : Nat),
      (briteStart st resp fwStatus).1 = { st with started := true } ∧
      (briteStart st resp fwStatus).2.1 =
        StartAction.mininetStart :: st.firewallRules.map StartAction.installRule ++
          [StartAction.enableFirewall] ∧
      (briteStart st resp fwStatus).2.2 =
        (List.range st.firewallRules.length).countP
            (fun j => decide (resp j ≠ 200)) +
          (if fwStatus = 200 then 0 else 1) := by
  intro st resp fwStatus
  refine ⟨rfl, ?_, ?_⟩
  · show StartAction.mininetStart :: (applyFirewallRules resp 0 st.firewallRules).1 ++
        [StartAction.enableFirewall] = _
    rw [applyFirewallRules_fst]
  · show (applyFirewallRules resp 0 st.firewallRules).2 + _ = _
    rw [applyFirewallRules_snd]
    simp only [Nat.zero_add]

/-- **C1.** One call of the parse entry point makes a single forward pass:
on a well-formed file with N node records and M edge records it produces
the event stream `writeHeader`, the N `addNode` events in file order, the
M `addEdge` events in file order, and one `writeFooter`, with no warnings;
the fan-out delivers each event to every observer in observer-list order
before advancing, so every observer receives exactly that stream. -/
theorem parse_single_pass_fanout
    (hdr1 hdr2 : String) (n m : Nat) (model : String)
    (nodeLines : List String) (nodeRecs : List NodeRec)
    (edgeLines : List String) (edgeRecs : List EdgeRec) (numObs : Nat)
    (h1 : topologyLineMatch hdr1 = some (n, m))
    (h2 : modelLineMatch hdr2 = some model)
    (hn : List.Forall₂ (fun l r => nodeLineParse l = some r) nodeLines nodeRecs)
    (he : List.Forall₂ (fun l r => edgeLineParse l = some r) edgeLines edgeRecs) :
    parseBrite (mkBriteFile hdr1 hdr2 nodeLines edgeLines) =
      some (briteEventStream n m model nodeRecs edgeRecs, 0) ∧
    (briteEventStream n m model nodeRecs edgeRecs).countP isAddNode =
      nodeLines.length ∧
    (briteEventStream n m model nodeRecs edgeRecs).countP isAddEdge =
      edgeLines.length ∧
    (briteEventStream n m model nodeRecs edgeRecs).countP isWriteFooter = 1 ∧
    ∀ i, i < numObs →
      observerView i
          (fanoutTrace numObs (briteEventStream n m model nodeRecs edgeRecs)) =
        briteEventStream n m model nodeRecs edgeRecs := by
  have hc := countP_briteEventStream n m model nodeRecs edgeRecs
  refine ⟨parseBrite_mkFile_wf hdr1 hdr2 n m model h1 h2 hn he, ?_, ?_, hc.2.2,
    fun i hi => observerView_fanout numObs _ i hi⟩
  · rw [hc.1, hn.length_eq]
  · rw [hc.2.1, he.length_eq]

/-- Witness for C1: a concrete one-node, one-edge file read by two
observers. -/
theorem parse_single_pass_fanout_w :
    parseBrite (mkBriteFile hdr1Sample hdr2Sample [nodeLineSample] [tenFieldLine]) =
      some (briteEventStream 3 5 "RTWaxman" [nodeRecSample] [edgeRecSample], 0) ∧
    observerView 1 (fanoutTrace 2
        (briteEventStream 3 5 "RTWaxman" [nodeRecSample] [edgeRecSample])) =
      briteEventStream 3 5 "RTWaxman" [nodeRecSample] [edgeRecSample] := by
  have h := parse_single_pass_fanout hdr1Sample hdr2Sample 3 5 "RTWaxman"
    [nodeLineSample] [nodeRecSample] [tenFieldLine] [edgeRecSample] 2 rfl rfl
    (List.Forall₂.cons rfl List.Forall₂.nil) (List.Forall₂.cons rfl List.Forall₂.nil)
  exact ⟨h.1, h.2.2.2.2 1 (by decide)⟩

/-- **C4.** In the node and edge sections every non-matching, non-blank
line is tolerated: it is skipped with a warning and the parse continues
and succeeds, whatever node/edge counts the header declares (`n` and `m`
are arbitrary); every observer receives exactly one callback per
well-formed record encountered, in file order, and one warning is counted
per malformed line. -/
theorem parse_tolerant_malformed
    (hdr1 hdr2 : String) (n m : Nat) (model : String)
    (nodeItems : List (String × Option NodeRec))
    (edgeItems : List (String × Option EdgeRec))
    (h1 : topologyLineMatch hdr1 = some (n, m))
    (h2 : modelLineMatch hdr2 = some model)
    (hn : ∀ it ∈ nodeItems, nodeItemOK it)
    (he : ∀ it ∈ edgeItems, edgeItemOK it) :
    parseBrite (mkBriteFile hdr1 hdr2 (nodeItems.map Prod.fst)
        (edgeItems.map Prod.fst)) =
      some (briteEventStream n m model (nodeItems.filterMap Prod.snd)
              (edgeItems.filterMap Prod.snd),
            nodeItems.countP (fun it => it.2.isNone) +
              edgeItems.countP (fun it => it.2.isNone)) ∧
    (briteEventStream n m model (nodeItems.filterMap Prod.snd)
        (edgeItems.filterMap Prod.snd)).countP isAddNode =
      (nodeItems.filterMap Prod.snd).length ∧
    (briteEventStream n m model (nodeItems.filterMap Prod.snd)
        (edgeItems.filterMap Prod.snd)).countP isAddEdge =
      (edgeItems.filterMap Prod.snd).length :=
  ⟨parseBrite_mkFile hdr1 hdr2 n m model nodeItems edgeItems h1 h2 hn he,
   (countP_briteEventStream n m model _ _).1,
   (countP_briteEventStream n m model _ _).2.1⟩

/-- Witness for C4: a file declaring 3 nodes and 5 edges that actually
holds one well-formed node record plus a stray line, and one malformed
(nine-field) edge line plus one well-formed edge record — the parse
succeeds with one callback per well-formed record and two warnings. -/
theorem parse_tolerant_malformed_w :
    parseBrite (mkBriteFile hdr1Sample hdr2Sample (nodeItemsSample.map Prod.fst)
        (edgeItemsSample.map Prod.fst)) =
      some (briteEventStream 3 5 "RTWaxman" [nodeRecSample] [edgeRecSample], 2) := by
  have hokn : ∀ it ∈ nodeItemsSample, nodeItemOK it := by
    intro it hit
    simp only [nodeItemsSample, List.mem_cons, List.not_mem_nil, or_false] at hit
    rcases hit with rfl | rfl
    · show nodeLineParse nodeLineSample = some nodeRecSample
      rfl
    · exact ⟨rfl, rfl⟩
  have hoke : ∀ it ∈ edgeItemsSample, edgeItemOK it := by
    intro it hit
    simp only [edgeItemsSample, List.mem_cons, List.not_mem_nil, or_false] at hit
    rcases hit with rfl | rfl
    · exact ⟨rfl, rfl⟩
    · show edgeLineParse tenFieldLine = some edgeRecSample
      rfl
  exact (parse_tolerant_malformed hdr1Sample hdr2Sample 3 5 "RTWaxman"
    nodeItemsSample edgeItemsSample rfl rfl hokn hoke).1

/-- **C6, counterexample.** A line of the nine-field form the claim
describes is not recognized by `edgeRe` (which demands a tenth
whitespace-separated token): it produces no `addEdge` callback and is
skipped with a warning, while the same line with a tenth field matches. -/
theorem edge_nine_fields_rejected :
    edgeLineMatch nineFieldLine = none ∧
      edgeLineMatch tenFieldLine =
        some (EdgeCaps.mk 1 2 3 "0.77" "10.00" "1" "2" "E_RT") ∧
      parseBrite (mkBriteFile hdr1Sample hdr2Sample [] [nineFieldLine]) =
        some ([BriteEvent.writeHeader 3 5 "RTWaxman", BriteEvent.writeFooter], 1) :=
  ⟨rfl, rfl, rfl⟩

/-- **C6, amended.** In the edge section a line is recognized as an edge
record when it matches the ten-field pattern
`id from to length delay bandwidth fromAS toAS type extra` (the regex
requires a tenth trailing token); a recognized line produces exactly one
`addEdge` callback whose delay is the 5th field and whose bandwidth is the
6th field of the line. -/
theorem edge_ten_field_semantics
    (hdr1 hdr2 : String) (n m : Nat) (model : String) (line : String)
    (r : EdgeRec)
    (h1 : topologyLineMatch hdr1 = some (n, m))
    (h2 : modelLineMatch hdr2 = some model)
    (hp : edgeLineParse line = some r) :
    parseBrite (mkBriteFile hdr1 hdr2 [] [line]) =
      some (briteEventStream n m model [] [r], 0) ∧
    ∀ caps, edgeLineMatch line = some caps →
      r.delay = caps.delay ∧ r.bandwidth = caps.bandwidth ∧
        r.edgeid = caps.edgeid ∧ r.fromNode = caps.fromNode ∧
        r.toNode = caps.toNode ∧ r.edgetype = caps.edgetype := by
  constructor
  · exact parseBrite_mkFile_wf hdr1 hdr2 n m model h1 h2 List.Forall₂.nil
      (List.Forall₂.cons hp List.Forall₂.nil)
  · intro caps hc
    rcases hf : pyIntOfTok caps.fromASTok with _ | fa
    · simp [edgeLineParse, hc, hf] at hp
    · rcases hta : pyIntOfTok caps.toASTok with _ | ta
      · simp [edgeLineParse, hc, hf, hta] at hp
      · simp only [edgeLineParse, hc, hf, hta, Option.some.injEq] at hp
        subst hp
        exact ⟨rfl, rfl, rfl, rfl, rfl, rfl⟩

/-- **C3.** AS ids are never duplicated in the AS map and exactly one
switch is created per AS entry (the mininet switch list is exactly one
switch per AS, each named after its AS id, and each AS record holds that
single switch handle); every `addNode` processed in a run from a fresh
topology leaves its node a member of the unique AS for its `asId` — so two
nodes sharing an `asId` end up in the same `AutonomousSystem` with the
same switch handle — and an AS exists only if some `addNode` carried its
id, i.e. it was created on the first such `addNode`. -/
theorem as_clustering_single_switch
    (evs : List BriteEvent) (st : BriteState)
    (h : applyBriteEvents initialBriteState evs = some st) :
    (st.autonomousSystems.map Prod.fst).Nodup ∧
      st.switches = st.autonomousSystems.map (fun p => switchname p.1) ∧
      (∀ p ∈ st.autonomousSystems, p.2.switch = switchname p.1) ∧
      (∀ nid aid ty, BriteEvent.addNode nid aid ty ∈ evs → memberOf nid aid st) ∧
      (∀ aid, (pyLookup aid st.autonomousSystems).isSome = true →
        ∃ nid ty, BriteEvent.addNode nid aid ty ∈ evs) := by
  obtain ⟨⟨hnd, hent, hsw⟩, -, hest, hprov⟩ :=
    applyBriteEvents_master evs initialBriteState st initial_inv h
  refine ⟨hnd, hsw, fun p hp => (hent p hp).2.1, hest, ?_⟩
  intro aid hsome
  rcases hprov aid hsome with h0 | h'
  · simp [initialBriteState, pyLookup] at h0
  · exact h'

/-- Witness for C3: two nodes sharing AS id 7 land in one AS with one
switch. -/
theorem as_clustering_single_switch_w :
    (stC3.autonomousSystems.map Prod.fst).Nodup ∧
      memberOf 1 7 stC3 ∧ memberOf 2 7 stC3 := by
  have h := as_clustering_single_switch evsC3 stC3 rfl
  exact ⟨h.1, h.2.2.2.1 1 7 rtNode (by decide), h.2.2.2.1 2 7 rtNode (by decide)⟩

/-- **C10.** After `writeFooter` completes, every host has been linked to
its AS's switch twice: the state before the footer holds exactly one
`(host, switch)` link per node, created when its `addNode` was processed
(in file order), and `writeFooter` then adds the switch backbone plus —
as `_connectASNodesToSwitches` re-links every member of every AS — exactly
one further `(switch, host)` link per node (a permutation of one link per
node record). -/
theorem hosts_linked_twice
    (n m : Nat) (model : String) (nds : List NodeRec) (eds : List EdgeRec)
    (hids : (nds.map NodeRec.nodeid).Nodup) :
    ∀ stPre, applyBriteEvents initialBriteState
        (BriteEvent.writeHeader n m model ::
          (nds.map nodeEvent ++ eds.map edgeEvent)) = some stPre →
      applyBriteEvents initialBriteState (briteEventStream n m model nds eds) =
        some (briteWriteFooter stPre) ∧
      stPre.links = nds.map (fun r => (botname r.nodeid, switchname r.asid)) ∧
      (briteWriteFooter stPre).links =
        (stPre.links ++ chainLinks (sortByKey stPre.autonomousSystems)) ++
          memberLinks stPre.autonomousSystems ∧
      (memberLinks stPre.autonomousSystems).Perm
        (nds.map (fun r => (switchname r.asid, botname r.nodeid))) := by
  intro stPre hpre
  have hrest : applyBriteEvents (briteWriteHeader initialBriteState n m model)
      (nds.map nodeEvent ++ eds.map edgeEvent) = some stPre := hpre
  obtain ⟨stN, hNrun, hNinv, hNw, hNs, hNlinks, hNkeys, hNml⟩ :=
    nodePhase nds (briteWriteHeader initialBriteState n m model) initial_inv rfl
      rfl (fun r _ h => absurd h (List.not_mem_nil _)) hids
  obtain ⟨stE, hErun, hEauto, hElinks, hEw, hEs⟩ := edgePhase eds stN hNw hNs
  have hsplit := applyBriteEvents_append
    (briteWriteHeader initialBriteState n m model)
    (nds.map nodeEvent) (eds.map edgeEvent)
  rw [hNrun] at hsplit
  have hPreE : stPre = stE := by
    have h2 : applyBriteEvents (briteWriteHeader initialBriteState n m model)
        (nds.map nodeEvent ++ eds.map edgeEvent) =
        applyBriteEvents stN (eds.map edgeEvent) := hsplit
    rw [hrest, hErun] at h2
    exact Option.some.inj h2
  have happ := applyBriteEvents_append
    (briteWriteHeader initialBriteState n m model)
    (nds.map nodeEvent ++ eds.map edgeEvent) [BriteEvent.writeFooter]
  rw [hrest] at happ
  have happ2 : applyBriteEvents (briteWriteHeader initialBriteState n m model)
      ((nds.map nodeEvent ++ eds.map edgeEvent) ++ [BriteEvent.writeFooter]) =
      some (briteWriteFooter stPre) := happ
  refine ⟨happ2, ?_, rfl, ?_⟩
  · rw [hPreE, hElinks, hNlinks]
    rw [show (briteWriteHeader initialBriteState n m model).links = [] from rfl,
      List.nil_append]
  · rw [hPreE, hEauto]
    refine (memberLinks_perm _).trans (hNml.trans ?_)
    rw [show allMemberLinks
        (briteWriteHeader initialBriteState n m model).autonomousSystems = []
      from rfl, List.nil_append]

/-- Witness for C10: two nodes in AS 7 and one edge; before the footer each
host carries one link to `sw7`, and the footer adds one more per host. -/
theorem hosts_linked_twice_w :
    stPreC10.links = ndsC10.map (fun r => (botname r.nodeid, switchname r.asid)) ∧
      (memberLinks stPreC10.autonomousSystems).Perm
        (ndsC10.map (fun r => (switchname r.asid, botname r.nodeid))) := by
  have h := hosts_linked_twice 2 1 "RTWaxman" ndsC10 edsC10 (by decide)
    stPreC10 rfl
  exact ⟨h.2.1, h.2.2.2⟩

/-- Witness for the amended C6 at the concrete ten-field line. -/
theorem edge_ten_field_semantics_w :
    parseBrite (mkBriteFile hdr1Sample hdr2Sample [] [tenFieldLine]) =
      some (briteEventStream 3 5 "RTWaxman" [] [edgeRecSample], 0) ∧
      edgeRecSample.delay = "0.77" ∧ edgeRecSample.bandwidth = "10.00" := by
  have h := edge_ten_field_semantics hdr1Sample hdr2Sample 3 5 "RTWaxman"
    tenFieldLine edgeRecSample rfl rfl rfl
  exact ⟨h.1, (h.2 (EdgeCaps.mk 1 2 3 "0.77" "10.00" "1" "2" "E_RT") rfl).1,
    (h.2 (EdgeCaps.mk 1 2 3 "0.77" "10.00" "1" "2" "E_RT") rfl).2.1⟩

end BriteSpec
